import Mathlib

/-!
Verification of the IPyHOP-temporal repository's temporal layer against its
specification.  The Python source is shallowly embedded: Python floats are
modelled as rationals, Python strings as `String`/`List Char`, dictionaries as
association lists, sets as duplicate-free lists, and raised exceptions as
explicit error results.
-/

/-! ## ISO 8601 duration utilities (src/ipyhop/temporal/utils.py) -/

/-- Numeric value of a list of decimal digit characters, most significant
first (the value the regex groups denote in `parse_iso8601_duration`). -/
def digitsVal (l : List Char) : ℕ :=
  l.foldl (fun a c => 10 * a + (c.toNat - 48)) 0

/-- Little-endian base-10 digits by structural recursion on a fuel bound
(kernel-reducible, unlike the well-founded `Nat.digits`). -/
def digitsRevF : ℕ → ℕ → List ℕ
  | 0, _ => []
  | _, 0 => []
  | fuel + 1, n + 1 => ((n + 1) % 10) :: digitsRevF fuel ((n + 1) / 10)

/-- Decimal rendering of a natural number, as produced by Python's
string formatting of a nonnegative integer. -/
def natDecimal (n : ℕ) : List Char :=
  if n = 0 then ['0'] else (digitsRevF n n).reverse.map (fun d => Char.ofNat (48 + d))

/-- One regex number `\d+(\.\d+)?`: take the maximal digit run, then an
optional fractional part.  Returns the parsed value and the unconsumed
suffix, or `none` when no digit is present (the group then matches
nothing).  Backtracking inside the run cannot expose the component letter,
because every proper prefix of the run is followed by a digit or `.`,
so maximal munch is exact for the pattern in `parse_iso8601_duration`. -/
def parseNumber (cs : List Char) : Option (ℚ × List Char) :=
  let ds := cs.takeWhile Char.isDigit
  let rest := cs.dropWhile Char.isDigit
  if ds = [] then none
  else if rest.head? = some '.' then
    let fs := rest.tail.takeWhile Char.isDigit
    let rest3 := rest.tail.dropWhile Char.isDigit
    if fs = [] then some ((digitsVal ds : ℚ), rest)
    else some ((digitsVal ds : ℚ) + (digitsVal fs : ℚ) / (10 : ℚ) ^ fs.length, rest3)
  else some ((digitsVal ds : ℚ), rest)

/-- One optional regex group `(?:(\d+(?:\.\d+)?)X)?`: a number followed by
the component letter, or nothing.  Returns the component value (`0` when
the group is absent, matching `float(match.group(i) or 0)`) and the
unconsumed suffix. -/
def parseComponent (letter : Char) (cs : List Char) : ℚ × List Char :=
  match parseNumber cs with
  | some (v, rest) =>
    match rest with
    | c :: rest2 => if c = letter then (v, rest2) else (0, cs)
    | [] => (0, cs)
  | none => (0, cs)

/-- The body of `parse_iso8601_duration` after the `PT` prefix is removed:
match `(?:(\d+(?:\.\d+)?)H)?(?:(\d+(?:\.\d+)?)M)?(?:(\d+(?:\.\d+)?)S)?`
(which always succeeds, all groups being optional) and combine
`hours * 3600 + minutes * 60 + seconds`. -/
def parseHMS (cs : List Char) : ℚ :=
  let hp := parseComponent 'H' cs
  let mp := parseComponent 'M' hp.2
  let sp := parseComponent 'S' mp.2
  hp.1 * 3600 + mp.1 * 60 + sp.1

/-- `parse_iso8601_duration` from src/ipyhop/temporal/utils.py: reject the
empty string and strings not starting with `PT`; otherwise run the
component regex on the remainder (a prefix match that always succeeds). -/
def parse_iso8601_duration (s : String) : Option ℚ :=
  if s.data = [] then none
  else if s.data.take 2 ≠ ['P', 'T'] then none
  else some (parseHMS (s.data.drop 2))

/-- `int(seconds // 3600)` of `format_iso8601_duration` (arguments are
nonnegative there, so truncation equals the floor). -/
def fmtHours (s0 : ℚ) : ℤ := ⌊s0 / 3600⌋

/-- `remaining = seconds % 3600` (Python float `%` is `x - y * floor (x/y)`). -/
def fmtRemaining (s0 : ℚ) : ℚ := s0 - 3600 * (⌊s0 / 3600⌋ : ℚ)

/-- `minutes = int(remaining // 60)`. -/
def fmtMinutes (s0 : ℚ) : ℤ := ⌊fmtRemaining s0 / 60⌋

/-- `secs = remaining % 60`. -/
def fmtSecs (s0 : ℚ) : ℚ := fmtRemaining s0 - 60 * (⌊fmtRemaining s0 / 60⌋ : ℚ)

/-- Strip all trailing occurrences of `c` (Python `str.rstrip(c)`). -/
def rstripCh (c : Char) (l : List Char) : List Char :=
  (l.reverse.dropWhile (fun x => x = c)).reverse

/-- Left-pad a digit list with `'0'` to width six. -/
def padSix (l : List Char) : List Char := List.replicate (6 - l.length) '0' ++ l

/-- The fractional-seconds branch of `format_iso8601_duration`:
`f"{secs:.6f}".rstrip('0').rstrip('.')`.  The value is rounded to six
decimal places (exact whenever the denominator divides `10 ^ 6`, which is
the case for every value the repository feeds it: Python datetimes have
microsecond resolution). -/
def fracRender (q : ℚ) : List Char :=
  let m6 : ℤ := ⌊q * 1000000 + 1 / 2⌋
  rstripCh '.' (rstripCh '0'
    (natDecimal (m6 / 1000000).toNat ++ '.' :: padSix (natDecimal (m6 % 1000000).toNat)))

/-- The seconds part appended by `format_iso8601_duration`:
present when `secs > 0 or (hours == 0 and minutes == 0)`; rendered as an
integer when `secs == int(secs)`, else through the 6-decimal branch. -/
def fmtSecPart (s0 : ℚ) : List Char :=
  if 0 < fmtSecs s0 ∨ (fmtHours s0 = 0 ∧ fmtMinutes s0 = 0) then
    (if fmtSecs s0 = (⌊fmtSecs s0⌋ : ℚ) then natDecimal (⌊fmtSecs s0⌋).toNat
     else fracRender (fmtSecs s0)) ++ ['S']
  else []

/-- The `parts` list assembled by `format_iso8601_duration`: hours and
minutes when positive, then the seconds part. -/
def fmtParts (s0 : ℚ) : List Char :=
  (if 0 < fmtHours s0 then natDecimal (fmtHours s0).toNat ++ ['H'] else []) ++
  (if 0 < fmtMinutes s0 then natDecimal (fmtMinutes s0).toNat ++ ['M'] else []) ++
  fmtSecPart s0

/-- `format_iso8601_duration` from src/ipyhop/temporal/utils.py: clamp
negatives to zero, split into hours, minutes and seconds, emit only the
nonzero parts (seconds also when everything is zero), prefix `PT`. -/
def format_iso8601_duration (seconds : ℚ) : String :=
  if fmtParts (if seconds < 0 then 0 else seconds) = [] then "PT0S"
  else String.mk ('P' :: 'T' :: fmtParts (if seconds < 0 then 0 else seconds))

/-! ## Simple Temporal Network (src/ipyhop/temporal/stn.py)

A Python `set` is modelled as a duplicate-free list in insertion order, a
`dict` as a key-unique association list in insertion order, `float('inf')`
as `⊤ : WithTop ℚ`, and a raised `ValueError` as a `some errorMessage`
result paired with the mutated object (Python exceptions leave the
receiver in its partially updated state). -/

/-- `set.add`: append if absent. -/
def setAdd (l : List String) (p : String) : List String :=
  if p ∈ l then l else l ++ [p]

/-- `dict[k] = v` on an association list: replace in place or append. -/
def assocInsert {κ α : Type} [DecidableEq κ] (d : List (κ × α)) (k : κ) (v : α) :
    List (κ × α) :=
  if d.any (fun kv => kv.1 = k) then d.map (fun kv => if kv.1 = k then (k, v) else kv)
  else d ++ [(k, v)]

/-- `dict.get(k, dflt)`. -/
def assocGetD {κ α : Type} [DecidableEq κ] (d : List (κ × α)) (k : κ) (dflt : α) : α :=
  match d.find? (fun kv => kv.1 = k) with
  | some kv => kv.2
  | none => dflt

/-- The `STN` object: `time_points` set, `constraints` dict keyed by
ordered point pairs, the two lazily invalidated caches `_distance_matrix`
and `_consistent`, and the `time_unit` tag. -/
structure STN where
  time_points : List String
  constraints : List ((String × String) × (ℚ × ℚ))
  distance_matrix : Option (List ((String × String) × WithTop ℚ))
  consistent_cache : Option Bool
  time_unit : String

/-- `STN(time_unit)`: the freshly constructed empty network. -/
def STN.empty (time_unit : String) : STN := ⟨[], [], none, none, time_unit⟩

/-- `STN.add_time_point`: insert the point and invalidate both caches. -/
def STN.add_time_point (s : STN) (p : String) : STN :=
  { s with time_points := setAdd s.time_points p,
           consistent_cache := none, distance_matrix := none }

/-- `STN.add_constraint`: add both endpoints first, then validate
`min <= max` (raising `ValueError` otherwise, with the points already
added), then record the constraint and invalidate the caches.  The second
component is the raised error, if any. -/
def STN.add_constraint (s : STN) (from_point to_point : String) (c : ℚ × ℚ) :
    STN × Option String :=
  let s1 := (s.add_time_point from_point).add_time_point to_point
  if c.1 > c.2 then (s1, some "Invalid constraint: min > max")
  else ({ s1 with
          constraints := assocInsert s1.constraints (from_point, to_point) c,
          consistent_cache := none,
          distance_matrix := none }, none)

/-- The distance matrix of `_build_distance_matrix`: the `defaultdict` of
`defaultdict(inf)` as an association list whose absent entries read `inf`. -/
def matGet (d : List ((String × String) × WithTop ℚ)) (i j : String) : WithTop ℚ :=
  assocGetD d (i, j) ⊤

/-- `dist[i][j] = v`. -/
def matSet (d : List ((String × String) × WithTop ℚ)) (i j : String) (v : WithTop ℚ) :
    List ((String × String) × WithTop ℚ) :=
  assocInsert d (i, j) v

/-- The initial matrix of `_build_distance_matrix`: all entries `inf`,
then diagonal zero for every point, then for each constraint the two
min-guarded edge updates `dist[u][v] <- max` and `dist[v][u] <- -min`. -/
def stnInitMat (points : List String)
    (constraints : List ((String × String) × (ℚ × ℚ))) :
    List ((String × String) × WithTop ℚ) :=
  let d0 := points.foldl (fun d p => matSet d p p 0) []
  constraints.foldl (fun d kv =>
    let d1 := if ((kv.2.2 : ℚ) : WithTop ℚ) < matGet d kv.1.1 kv.1.2 then
        matSet d kv.1.1 kv.1.2 ((kv.2.2 : ℚ) : WithTop ℚ) else d
    if ((-kv.2.1 : ℚ) : WithTop ℚ) < matGet d1 kv.1.2 kv.1.1 then
        matSet d1 kv.1.2 kv.1.1 ((-kv.2.1 : ℚ) : WithTop ℚ) else d1) d0

/-- The in-place Floyd-Warshall triple loop of `_build_distance_matrix`:
the guard `dist[i][k] != inf and dist[k][j] != inf and
dist[i][j] > dist[i][k] + dist[k][j]` is exactly a strict improvement
check in `WithTop ℚ`, where `⊤ + x = ⊤`. -/
def fwLoop (points : List String) (d : List ((String × String) × WithTop ℚ)) :
    List ((String × String) × WithTop ℚ) :=
  points.foldl (fun d k =>
    points.foldl (fun d i =>
      points.foldl (fun d j =>
        if matGet d i k ≠ ⊤ ∧ matGet d k j ≠ ⊤ ∧ matGet d i k + matGet d k j < matGet d i j
        then matSet d i j (matGet d i k + matGet d k j) else d) d) d) d

/-- The all-pairs shortest-path closure computed by
`_build_distance_matrix` before it is stored as a plain dict. -/
def STN.fwClosure (s : STN) : String → String → WithTop ℚ :=
  fun i j => matGet (fwLoop s.time_points (stnInitMat s.time_points s.constraints)) i j

/-- `STN._build_distance_matrix`: the empty dict on an empty network,
otherwise the closure tabulated over all point pairs
(`{(i, j): dist[i][j] for i in points for j in points}`). -/
def STN.build_distance_matrix (s : STN) : List ((String × String) × WithTop ℚ) :=
  if s.time_points = [] then []
  else (s.time_points.product s.time_points).map (fun ij => (ij, s.fwClosure ij.1 ij.2))

/-- `STN.consistent`: serve the cached verdict when present; otherwise
build the matrix if needed, scan the diagonal with default `0` for
missing entries, and store both caches.  Returns the verdict and the
updated object. -/
def STN.consistent (s : STN) : Bool × STN :=
  match s.consistent_cache with
  | some b => (b, s)
  | none =>
    let m := match s.distance_matrix with
      | some m => m
      | none => s.build_distance_matrix
    let ok := s.time_points.all (fun p => !decide (assocGetD m (p, p) 0 < 0))
    (ok, { s with distance_matrix := some m, consistent_cache := some ok })

/-- `STN.get_intervals`: the constraint dict flattened to
`(from, to, min, max)` tuples. -/
def STN.get_intervals (s : STN) : List (String × String × ℚ × ℚ) :=
  s.constraints.map (fun kv => (kv.1.1, kv.1.2, kv.2.1, kv.2.2))

/-- `STN.copy`: a fresh object with copied point set and constraint dict
(and therefore empty caches, as set by `STN.__init__`). -/
def STN.copy (s : STN) : STN := ⟨s.time_points, s.constraints, none, none, s.time_unit⟩

/-- `STN.check_interval_conflicts`: build a temporary network from copies
of the receiver's set and dict, add the candidate constraint, and report
whether the temporary network is inconsistent.  A `ValueError` from
`add_constraint` propagates (first component `none`); the receiver is
returned untouched in every case. -/
def STN.check_interval_conflicts (s : STN) (start_point end_point : String)
    (min_duration max_duration : ℚ) : Option Bool × STN :=
  let temp : STN := ⟨s.time_points, s.constraints, none, none, s.time_unit⟩
  let r := temp.add_constraint start_point end_point (min_duration, max_duration)
  match r.2 with
  | some _ => (none, s)
  | none => (some (!(r.1.consistent).1), s)

/-- The specification's STN inconsistency scenario: points `a, b, c` with
constraints `(a,b) = (10,10)`, `(b,c) = (5,5)`, `(a,c) = (0,10)`. -/
def stnExample : STN :=
  ((((STN.empty "second").add_constraint "a" "b" (10, 10)).1.add_constraint
      "b" "c" (5, 5)).1.add_constraint "a" "c" (0, 10)).1

/-! ### Heap model for copy independence

Python mutates the `set` and `dict` objects reachable from an `STN`, so
aliasing is modelled explicitly: every set object and every dict object is
a heap cell, an `STN` object holds references to its two cells, and
`STN.copy` (`self.time_points.copy()`, `self.constraints.copy()`)
allocates fresh cells holding copies of the contents.  Mutating methods
write only through the receiver's references. -/

structure HeapWorld where
  sets : List (List String)
  dicts : List (List ((String × String) × (ℚ × ℚ)))

/-- An `STN` object's two instance-attribute references. -/
structure STNRef where
  tpRef : ℕ
  cRef : ℕ

/-- The contents of the receiver's `time_points` set object. -/
def readPoints (w : HeapWorld) (r : STNRef) : List String := w.sets.getD r.tpRef []

/-- The contents of the receiver's `constraints` dict object. -/
def readCons (w : HeapWorld) (r : STNRef) :
    List ((String × String) × (ℚ × ℚ)) := w.dicts.getD r.cRef []

/-- `STN.copy` at heap level: a new `STN` object whose two attributes are
freshly allocated cells holding copies of the receiver's contents. -/
def heapCopy (w : HeapWorld) (r : STNRef) : HeapWorld × STNRef :=
  ({ sets := w.sets ++ [readPoints w r], dicts := w.dicts ++ [readCons w r] },
   ⟨w.sets.length, w.dicts.length⟩)

/-- The mutating calls of claim C8. -/
inductive STNOp where
  | addTimePoint (p : String)
  | addConstraint (u v : String) (mn mx : ℚ)

/-- One mutating call on the object `c`: `add_time_point` writes the point
set; `add_constraint` writes the point set (both endpoints) and, unless it
raises on `min > max`, the constraint dict. -/
def applyOp (w : HeapWorld) (c : STNRef) : STNOp → HeapWorld
  | .addTimePoint p => { w with sets := w.sets.set c.tpRef (setAdd (readPoints w c) p) }
  | .addConstraint u v mn mx =>
      let w1 : HeapWorld :=
        { w with sets := w.sets.set c.tpRef (setAdd (setAdd (readPoints w c) u) v) }
      if mn > mx then w1
      else { w1 with
             dicts := w1.dicts.set c.cRef (assocInsert (readCons w1 c) (u, v) (mn, mx)) }

/-- A sequence of mutating calls on the object `c`. -/
def applyOps (w : HeapWorld) (c : STNRef) (ops : List STNOp) : HeapWorld :=
  ops.foldl (fun w op => applyOp w c op) w

/-- The `STN` value an object denotes for observation: its cell contents
(fresh caches, as observers recompute them). -/
def stnAt (w : HeapWorld) (r : STNRef) : STN :=
  ⟨readPoints w r, readCons w r, none, none, "second"⟩

/-! ## TemporalMetadata duration setter and the Actions registry
(src/ipyhop/temporal_metadata.py, src/ipyhop/actions.py) -/

/-- The `{_duration, _start_time, _end_time}` triple (ISO 8601 strings or
unset). -/
structure TemporalMetadata where
  duration : Option String
  start_time : Option String
  end_time : Option String

/-- A value passed as a duration: Python `float`/`int` or `str`. -/
inductive DurArg where
  | num (seconds : ℚ)
  | str (s : String)

/-- `TemporalMetadata.set_duration`: numbers are formatted, strings are
validated by parsing and stored verbatim; invalid strings raise
`ValueError` (second component) leaving the field unchanged. -/
def TemporalMetadata.set_duration (tm : TemporalMetadata) (d : DurArg) :
    TemporalMetadata × Option String :=
  match d with
  | .num q => ({ tm with duration := some (format_iso8601_duration q) }, none)
  | .str s =>
    match parse_iso8601_duration s with
    | some _ => ({ tm with duration := some s }, none)
    | none => (tm, some "Invalid ISO 8601 duration")

/-- `TemporalMetadata(duration=d)`: the constructor applies the
validating setter when the argument is present. -/
def TemporalMetadata.mkD (d : Option DurArg) : TemporalMetadata × Option String :=
  match d with
  | none => (⟨none, none, none⟩, none)
  | some d => TemporalMetadata.set_duration ⟨none, none, none⟩ d

/-- A Python action function: its `__name__` and an opaque body. -/
structure ActionFunc where
  name : String
  code : ℕ

/-- The `Actions` registry: `action_dict`, `action_prob`, `action_cost`
and `action_temporal_dict`, all dictionaries keyed by action name. -/
structure Actions where
  action_dict : List (String × ℕ)
  action_prob : List (String × (ℕ × ℕ))
  action_cost : List (String × ℚ)
  action_temporal_dict : List (String × TemporalMetadata)

/-- `Actions()`: all four dicts empty. -/
def Actions.init : Actions := ⟨[], [], [], []⟩

/-- `Actions.declare_actions`: update the three maps with every listed
function, default probability `[1, 0]` and cost `1.0`. -/
def Actions.declare_actions (a : Actions) (action_list : List ActionFunc) : Actions :=
  { a with
    action_dict := action_list.foldl (fun d f => assocInsert d f.name f.code) a.action_dict,
    action_prob := action_list.foldl (fun d f => assocInsert d f.name (1, 0)) a.action_prob,
    action_cost := action_list.foldl (fun d f => assocInsert d f.name (1 : ℚ)) a.action_cost }

/-- `Actions.declare_action_models`: update the probability and cost maps
from the arguments, then assert that both have as many keys as
`action_dict`; a failed assert raises after the updates are in place. -/
def Actions.declare_action_models (a : Actions)
    (act_prob_dict : List (String × (ℕ × ℕ))) (act_cost_dict : List (String × ℚ)) :
    Actions × Option String :=
  let a1 := { a with
    action_prob := act_prob_dict.foldl (fun d kv => assocInsert d kv.1 kv.2) a.action_prob,
    action_cost := act_cost_dict.foldl (fun d kv => assocInsert d kv.1 kv.2) a.action_cost }
  if a1.action_prob.length = a1.action_dict.length then
    if a1.action_cost.length = a1.action_dict.length then (a1, none)
    else (a1, some "AssertionError")
  else (a1, some "AssertionError")

/-- One entry of `declare_temporal_actions`: `(fn, duration)` or
`(name, fn, duration)` (entries of other lengths raise before touching
any map and are excluded by this shape). -/
inductive TItem where
  | two (f : ActionFunc) (d : DurArg)
  | three (action_name : String) (f : ActionFunc) (d : DurArg)

/-- Processing of a single `declare_temporal_actions` entry: register the
action in the three maps (for the 2-tuple form only when absent), then
construct `TemporalMetadata(duration=...)`, whose `ValueError` on an
invalid duration string propagates after the registration updates. -/
def Actions.declare_temporal_one (a : Actions) (item : TItem) : Actions × Option String :=
  match item with
  | .two f d =>
    let a1 := if a.action_dict.any (fun kv => kv.1 = f.name) then a
      else { a with
        action_dict := assocInsert a.action_dict f.name f.code,
        action_prob := assocInsert a.action_prob f.name (1, 0),
        action_cost := assocInsert a.action_cost f.name (1 : ℚ) }
    match TemporalMetadata.mkD (some d) with
    | (tm, none) =>
      ({ a1 with action_temporal_dict := assocInsert a1.action_temporal_dict f.name tm }, none)
    | (_, some e) => (a1, some e)
  | .three action_name f d =>
    let a1 := { a with
        action_dict := assocInsert a.action_dict action_name f.code,
        action_prob := assocInsert a.action_prob action_name (1, 0),
        action_cost := assocInsert a.action_cost action_name (1 : ℚ) }
    match TemporalMetadata.mkD (some d) with
    | (tm, none) =>
      ({ a1 with action_temporal_dict := assocInsert a1.action_temporal_dict action_name tm },
        none)
    | (_, some e) => (a1, some e)

/-- `Actions.declare_temporal_actions`: process the entries in order; a
raised error aborts the remaining entries (the state keeps the updates
made so far). -/
def Actions.declare_temporal_actions (a : Actions) (items : List TItem) :
    Actions × Option String :=
  items.foldl (fun acc item =>
    match acc.2 with
    | some _ => acc
    | none => Actions.declare_temporal_one acc.1 item) (a, none)

/-- The key list of a dictionary. -/
def keys {α : Type} (d : List (String × α)) : List String := d.map Prod.fst

/-- Two dictionaries have the same key set. -/
def sameKeys {α β : Type} (d1 : List (String × α)) (d2 : List (String × β)) : Prop :=
  ∀ k, k ∈ keys d1 ↔ k ∈ keys d2

/-- The specification invariant of claim C9. -/
def ActionsInv (a : Actions) : Prop :=
  sameKeys a.action_prob a.action_dict ∧ sameKeys a.action_cost a.action_dict

/-- Well-formedness every Python dict enjoys: no duplicate keys. -/
def ActionsWF (a : Actions) : Prop :=
  (keys a.action_dict).Nodup ∧ (keys a.action_prob).Nodup ∧ (keys a.action_cost).Nodup

/-! ## Gregorian calendar arithmetic for the datetime model

CPython's `datetime` stores civil fields and converts through the
proleptic-Gregorian ordinal for arithmetic.  The two conversions are
embedded below (days counted from 1970-03-01-based eras, Hinnant's
formulation of the same Gregorian bijection CPython's
`_ymd2ord`/`_ord2ymd` compute); the round-trip and field-validity
theorems below are what the datetime claims rest on. -/

/-- Day-of-era of the start of era-year `yoe` (years run March-February
inside an era). -/
def dfcF (yoe : ℕ) : ℕ := 365 * yoe + yoe / 4 - yoe / 100

/-- Like `dfcF` but counting the era wrap, so `dfcFx 400 = 146097`. -/
def dfcFx (yoe : ℕ) : ℕ := 365 * yoe + yoe / 4 - yoe / 100 + yoe / 400

/-- Numerator of the era-year decode formula. -/
def dfcN (doe : ℕ) : ℕ := doe - doe / 1460 + doe / 36524 - doe / 146096

/-- Era-year of a day-of-era. -/
def dfcG (doe : ℕ) : ℕ := dfcN doe / 365

/-- Shifted month (March = 0) to civil month. -/
def monthOfMp (mp : ℕ) : ℕ := if mp < 10 then mp + 3 else mp - 9

/-- Civil month to shifted month. -/
def mpOfMonth (m : ℕ) : ℕ := if 2 < m then m - 3 else m + 9

/-- Civil `(era-year, month, day)` from a day-of-era. -/
def civilOfDoe (doe : ℕ) : ℕ × ℕ × ℕ :=
  let yoe := dfcG doe
  let doy := doe - dfcF yoe
  let mp := (5 * doy + 2) / 153
  (yoe, monthOfMp mp, doy - (153 * mp + 2) / 5 + 1)

/-- Day-of-era from civil `(era-year, month, day)`. -/
def doeOfCivil (yoe m d : ℕ) : ℕ :=
  dfcF yoe + ((153 * mpOfMonth m + 2) / 5 + d - 1)

/-- Gregorian leap-year test on integer years. -/
def isLeapZ (y : ℤ) : Bool := decide ((y % 4 = 0 ∧ y % 100 ≠ 0) ∨ y % 400 = 0)

/-- Leap test for the February inside era-year `yoe` (calendar year
`yoe + 1` of the era). -/
def eraLeapB (yoe : ℕ) : Bool :=
  decide (((yoe + 1) % 4 = 0 ∧ (yoe + 1) % 100 ≠ 0) ∨ (yoe + 1) % 400 = 0)

/-- Month lengths. -/
def daysInMonthB (leap : Bool) (m : ℕ) : ℕ :=
  if m = 2 then (if leap then 29 else 28)
  else if m = 4 ∨ m = 6 ∨ m = 9 ∨ m = 11 then 30 else 31

/-- Civil date (year, month, day) of the day `z` counted from 1970-01-01. -/
def civilFromDays (z : ℤ) : ℤ × ℕ × ℕ :=
  let era : ℤ := (z + 719468).fdiv 146097
  let c := civilOfDoe (z + 719468 - era * 146097).toNat
  (era * 400 + c.1 + (if c.2.1 ≤ 2 then 1 else 0), c.2.1, c.2.2)

/-- Day count from 1970-01-01 of a civil date. -/
def daysFromCivil (y : ℤ) (m d : ℕ) : ℤ :=
  let y2 : ℤ := y - (if m ≤ 2 then 1 else 0)
  let era : ℤ := y2.fdiv 400
  era * 146097 + (doeOfCivil (y2 - era * 400).toNat m d : ℤ) - 719468

/-- The per-day decode checks that are verified by enumeration over one
day-of-year: month/day decode, its inverse, and the day bounds. -/
def monthCheck (doy : ℕ) : Bool :=
  let mp := (5 * doy + 2) / 153
  let d := doy - (153 * mp + 2) / 5 + 1
  let m := monthOfMp mp
  mpOfMonth m == mp && ((153 * mp + 2) / 5 + d - 1 == doy) &&
  1 ≤ m && m ≤ 12 && 1 ≤ d &&
  (!(decide (doy < 365)) || d ≤ daysInMonthB false m) &&
  d ≤ daysInMonthB true m

/-- The per-era-year decode checks verified by enumeration: the decode
formula is exact at both ends of every era-year. -/
def endpointCheck (yoe : ℕ) : Bool :=
  dfcG (dfcFx yoe) == yoe && dfcG (dfcFx (yoe + 1) - 1) == yoe

/-- Validity of a civil date as Python's `datetime` checks it (month and
day ranges for the proleptic Gregorian calendar). -/
def dateValid (y : ℤ) (m d : ℕ) : Prop :=
  1 ≤ m ∧ m ≤ 12 ∧ 1 ≤ d ∧ d ≤ daysInMonthB (isLeapZ y) m

/-- The calendar conversions invert each other at `z` and produce a valid
civil date. -/
def calRT (z : ℤ) : Prop :=
  daysFromCivil (civilFromDays z).1 (civilFromDays z).2.1 (civilFromDays z).2.2 = z ∧
  dateValid (civilFromDays z).1 (civilFromDays z).2.1 (civilFromDays z).2.2

/-! ## The Python datetime value model

A `datetime.datetime` stores civil fields at microsecond resolution plus
an optional fixed UTC offset (seconds).  Arithmetic converts through the
day ordinal exactly as CPython does. -/

structure PyDateTime where
  year : ℤ
  month : ℕ
  day : ℕ
  hour : ℕ
  minute : ℕ
  second : ℕ
  micro : ℕ
  tz : Option ℤ

/-- The field ranges `datetime` enforces (`MINYEAR..MAXYEAR`, valid civil
date, clock fields, and an offset strictly within a day). -/
def dtValid (dt : PyDateTime) : Prop :=
  1 ≤ dt.year ∧ dt.year ≤ 9999 ∧ dateValid dt.year dt.month dt.day ∧
  dt.hour ≤ 23 ∧ dt.minute ≤ 59 ∧ dt.second ≤ 59 ∧ dt.micro ≤ 999999 ∧
  (∀ o, dt.tz = some o → -86400 < o ∧ o < 86400)

/-- Microseconds of the naive clock reading since the epoch. -/
def naiveMicros (dt : PyDateTime) : ℤ :=
  daysFromCivil dt.year dt.month dt.day * 86400000000
    + ((dt.hour * 3600 + dt.minute * 60 + dt.second : ℕ) : ℤ) * 1000000 + (dt.micro : ℤ)

/-- The instant a datetime denotes, in seconds: naive clock minus the UTC
offset; a naive datetime is interpreted in UTC (spec section 4.1). -/
def instantSeconds (dt : PyDateTime) : ℚ :=
  (naiveMicros dt : ℚ) / 1000000 - ((dt.tz.getD 0 : ℤ) : ℚ)

/-- Rebuild civil fields from naive epoch microseconds (CPython's
`fromordinal`-based decomposition). -/
def dtFromNaiveMicros (x : ℤ) (tz : Option ℤ) : PyDateTime :=
  let days := x.fdiv 86400000000
  let rem := (x - days * 86400000000).toNat
  let c := civilFromDays days
  { year := c.1, month := c.2.1, day := c.2.2,
    hour := rem / 3600000000,
    minute := rem % 3600000000 / 60000000,
    second := rem % 60000000 / 1000000,
    micro := rem % 1000000,
    tz := tz }

/-- `dt + timedelta(microseconds=delta)`: field arithmetic through the
ordinal; `OverflowError` (result `none`) when the result year leaves
`1..9999`. -/
def addMicros (dt : PyDateTime) (delta : ℤ) : Option PyDateTime :=
  let dt2 := dtFromNaiveMicros (naiveMicros dt + delta) dt.tz
  if 1 ≤ dt2.year ∧ dt2.year ≤ 9999 then some dt2 else none

/-! ## `datetime.fromisoformat` and `datetime.isoformat`

The grammar modelled is the documented isoformat profile
`YYYY-MM-DD[ (T or space) HH:MM[:SS[.ffffff]][(+ or -)HH:MM[:SS]]]`
with one to six fractional-second digits, the profile CPython both emits
and parses back. -/

/-- Exactly `k` decimal digits. -/
def parseFixed (k : ℕ) (cs : List Char) : Option (ℕ × List Char) :=
  if (cs.take k).length = k ∧ (cs.take k).all Char.isDigit
  then some (digitsVal (cs.take k), cs.drop k) else none

/-- One mandatory literal character. -/
def expectChar (c : Char) (cs : List Char) : Option (List Char) :=
  match cs with
  | x :: rest => if x = c then some rest else none
  | [] => none

/-- Optional fractional seconds `.f{1,6}`, scaled to microseconds. -/
def parseFrac (cs : List Char) : Option (ℕ × List Char) :=
  if cs.head? = some '.' then
    if 1 ≤ (cs.tail.takeWhile Char.isDigit).length ∧
        (cs.tail.takeWhile Char.isDigit).length ≤ 6
    then some (digitsVal (cs.tail.takeWhile Char.isDigit)
        * 10 ^ (6 - (cs.tail.takeWhile Char.isDigit).length),
      cs.tail.drop (cs.tail.takeWhile Char.isDigit).length)
    else none
  else some (0, cs)

/-- The clock part `HH:MM[:SS[.ffffff]]`. -/
def parseClock (cs : List Char) : Option ((ℕ × ℕ × ℕ × ℕ) × List Char) :=
  (parseFixed 2 cs).bind fun ph =>
  (expectChar ':' ph.2).bind fun r2 =>
  (parseFixed 2 r2).bind fun pm =>
  if pm.2.head? = some ':' then
    (parseFixed 2 pm.2.tail).bind fun ps =>
    (parseFrac ps.2).bind fun pf =>
    some ((ph.1, pm.1, ps.1, pf.1), pf.2)
  else some ((ph.1, pm.1, 0, 0), pm.2)

/-- The trailing offset: nothing (naive) or `±HH:MM[:SS]`, consuming the
whole remainder; the offset must stay within a day (the `timezone`
constructor raises otherwise). -/
def parseOffsetEnd (cs : List Char) : Option (Option ℤ) :=
  match cs with
  | [] => some none
  | c :: r1 =>
    if c = '+' ∨ c = '-' then
      (parseFixed 2 r1).bind fun poh =>
      (expectChar ':' poh.2).bind fun r3 =>
      (parseFixed 2 r3).bind fun pom =>
      (match pom.2 with
       | [] => some (poh.1 * 3600 + pom.1 * 60)
       | _ =>
         (expectChar ':' pom.2).bind fun r5 =>
         (parseFixed 2 r5).bind fun pos2 =>
         if pos2.2 = [] then some (poh.1 * 3600 + pom.1 * 60 + pos2.1) else none).bind
      fun total =>
      if total < 86400 then
        some (some (if c = '-' then -(total : ℤ) else (total : ℤ)))
      else none
    else none

/-- Range validation performed by the `datetime` constructor. -/
def isoValidate (y mo dd h mi s us : ℕ) (tz : Option ℤ) : Option PyDateTime :=
  if 1 ≤ y ∧ 1 ≤ mo ∧ mo ≤ 12 ∧ 1 ≤ dd ∧ dd ≤ daysInMonthB (isLeapZ (y : ℤ)) mo ∧
      h ≤ 23 ∧ mi ≤ 59 ∧ s ≤ 59
  then some ⟨(y : ℤ), mo, dd, h, mi, s, us, tz⟩ else none

/-- `datetime.fromisoformat` on a character list. -/
def fromisoformatM (cs : List Char) : Option PyDateTime :=
  (parseFixed 4 cs).bind fun py =>
  (expectChar '-' py.2).bind fun r2 =>
  (parseFixed 2 r2).bind fun pmo =>
  (expectChar '-' pmo.2).bind fun r4 =>
  (parseFixed 2 r4).bind fun pdd =>
  match pdd.2 with
  | [] => isoValidate py.1 pmo.1 pdd.1 0 0 0 0 none
  | sep :: r6 =>
    if sep = 'T' ∨ sep = ' ' then
      (parseClock r6).bind fun pc =>
      (parseOffsetEnd pc.2).bind fun tz =>
      isoValidate py.1 pmo.1 pdd.1 pc.1.1 pc.1.2.1 pc.1.2.2.1 pc.1.2.2.2 tz
    else none

/-- Single-character replace `('Z' -> '+00:00')` of Python `str.replace`. -/
def replaceZ : List Char → List Char
  | [] => []
  | c :: rest =>
    if c = 'Z' then '+' :: '0' :: '0' :: ':' :: '0' :: '0' :: replaceZ rest
    else c :: replaceZ rest

/-- The preprocessing of `parse_iso8601_datetime`: rewrite a trailing `Z`
to `+00:00`, then replace every remaining `Z` the same way. -/
def pyPreprocess (l : List Char) : List Char :=
  replaceZ (if l.getLast? = some 'Z' then l.dropLast ++ ['+', '0', '0', ':', '0', '0'] else l)

/-- `parse_iso8601_datetime` from src/ipyhop/temporal/utils.py. -/
def parse_iso8601_datetime (s : String) : Option PyDateTime :=
  fromisoformatM (pyPreprocess s.data)

/-- Left-pad with zeros to width `k`. -/
def padTo (k : ℕ) (l : List Char) : List Char := List.replicate (k - l.length) '0' ++ l

/-- `isoformat` rendering of a fixed-offset timezone: sign, `HH:MM`, and
`:SS` when the offset has seconds. -/
def renderOffset (o : ℤ) : List Char :=
  (if o < 0 then '-' else '+') ::
    (padTo 2 (natDecimal (o.natAbs / 3600)) ++ ':' :: padTo 2 (natDecimal (o.natAbs % 3600 / 60))
      ++ (if o.natAbs % 60 ≠ 0 then ':' :: padTo 2 (natDecimal (o.natAbs % 60)) else []))

/-- `datetime.isoformat()`: date, `T`, clock, microseconds only when
nonzero, then the offset for aware values. -/
def isoRender (dt : PyDateTime) : List Char :=
  padTo 4 (natDecimal dt.year.toNat)
    ++ '-' :: padTo 2 (natDecimal dt.month) ++ '-' :: padTo 2 (natDecimal dt.day)
    ++ 'T' :: padTo 2 (natDecimal dt.hour) ++ ':' :: padTo 2 (natDecimal dt.minute)
    ++ ':' :: padTo 2 (natDecimal dt.second)
    ++ (if dt.micro ≠ 0 then '.' :: padTo 6 (natDecimal dt.micro) else [])
    ++ (match dt.tz with | none => [] | some o => renderOffset o)

/-- Fuel-driven substring replace `('+00:00' -> 'Z')`; the wrapper below
always supplies enough fuel. -/
def replacePlus00F : ℕ → List Char → List Char
  | 0, l => l
  | fuel + 1, l =>
    match l with
    | [] => []
    | c :: rest =>
      if c = '+' ∧ rest.take 5 = ['0', '0', ':', '0', '0']
      then 'Z' :: replacePlus00F fuel (rest.drop 5)
      else c :: replacePlus00F fuel rest

/-- Python `str.replace('+00:00', 'Z')`: left-to-right, non-overlapping. -/
def replacePlus00 (l : List Char) : List Char := replacePlus00F l.length l

/-- `format_iso8601_datetime` from src/ipyhop/temporal/utils.py: attach
the environment's local timezone to naive values (the environment offset
is the `localOffset` parameter), render, and rewrite `+00:00` to `Z`. -/
def format_iso8601_datetime (localOffset : ℤ) (dt : PyDateTime) : String :=
  String.mk (replacePlus00 (isoRender
    (match dt.tz with | none => { dt with tz := some localOffset } | some _ => dt)))

/-- Round half to even (CPython `timedelta`'s conversion of a fractional
microsecond count to an integer one). -/
def pyRound (x : ℚ) : ℤ :=
  if Int.fract x < 1 / 2 then ⌊x⌋
  else if 1 / 2 < Int.fract x then ⌊x⌋ + 1
  else if ⌊x⌋ % 2 = 0 then ⌊x⌋ else ⌊x⌋ + 1

/-- `calculate_end_time` from src/ipyhop/temporal/utils.py on string
arguments: parse failures give `None` (`.ok none`); the `timedelta`
addition raises an uncaught `OverflowError` when the result leaves the
supported year range (`.error ()`); otherwise the sum is formatted (the
environment's local offset is attached when the start was naive). -/
def calculate_end_time (localOffset : ℤ) (startS durS : String) :
    Except Unit (Option String) :=
  match parse_iso8601_datetime startS with
  | none => .ok none
  | some dt =>
    match parse_iso8601_duration durS with
    | none => .ok none
    | some q =>
      match addMicros dt (pyRound (q * 1000000)) with
      | none => .error ()
      | some dt2 => .ok (some (format_iso8601_datetime localOffset dt2))

/-- `TemporalMetadata.set_start_time` on a string: validate by parsing;
an invalid string raises `ValueError` and leaves the field unchanged. -/
def TemporalMetadata.set_start_time (tm : TemporalMetadata) (s : String) :
    TemporalMetadata × Option String :=
  match parse_iso8601_datetime s with
  | some _ => ({ tm with start_time := some s }, none)
  | none => (tm, some "Invalid ISO 8601 datetime")

/-- `TemporalMetadata.set_end_time` on a string, as for the start time. -/
def TemporalMetadata.set_end_time (tm : TemporalMetadata) (s : String) :
    TemporalMetadata × Option String :=
  match parse_iso8601_datetime s with
  | some _ => ({ tm with end_time := some s }, none)
  | none => (tm, some "Invalid ISO 8601 datetime")

/-- `TemporalMetadata.calculate_end_from_duration`: `False` when either
field is unset; an `OverflowError` from the addition propagates;
otherwise the formatted end is stored and `True` returned. -/
def TemporalMetadata.calculate_end_from_duration (localOffset : ℤ)
    (tm : TemporalMetadata) : Except Unit (Bool × TemporalMetadata) :=
  match tm.start_time, tm.duration with
  | some st, some du =>
    (match calculate_end_time localOffset st du with
     | .error e => .error e
     | .ok none => .ok (false, tm)
     | .ok (some endS) => .ok (true, { tm with end_time := some endS }))
  | _, _ => .ok (false, tm)

/-- `end_dt - start_dt` in microseconds: Python `datetime` subtraction
raises `TypeError` when exactly one operand is timezone-aware; aware
values are compared by instant (UTC offsets subtracted). -/
def dtSubMicros (e s : PyDateTime) : Except Unit ℤ :=
  match e.tz, s.tz with
  | none, none => .ok (naiveMicros e - naiveMicros s)
  | some oe, some os =>
      .ok ((naiveMicros e - oe * 1000000) - (naiveMicros s - os * 1000000))
  | _, _ => .error ()

/-- `TemporalMetadata.calculate_duration`: `False` when a field is unset
or fails to parse; the datetime subtraction may raise `TypeError`
(`.error`); a negative difference returns `False` leaving the duration
unchanged; otherwise the difference is formatted and stored. -/
def TemporalMetadata.calculate_duration (tm : TemporalMetadata) :
    Except Unit (Bool × TemporalMetadata) :=
  match tm.start_time, tm.end_time with
  | some st, some en =>
    (match parse_iso8601_datetime st, parse_iso8601_datetime en with
     | some sdt, some edt =>
       (match dtSubMicros edt sdt with
        | .error e => .error e
        | .ok m =>
          if (m : ℚ) / 1000000 < 0 then .ok (false, tm)
          else .ok (true,
            { tm with duration := some (format_iso8601_duration ((m : ℚ) / 1000000)) }))
     | _, _ => .ok (false, tm))
  | _, _ => .ok (false, tm)

/-! ### Digit rendering lemmas -/

lemma digitsVal_append (a b : List Char) :
    digitsVal (a ++ b) = b.foldl (fun x c => 10 * x + (c.toNat - 48)) (digitsVal a) := by
  simp [digitsVal, List.foldl_append]

lemma digitsVal_digitsRev (n : ℕ) :
    digitsVal ((Nat.digits 10 n).reverse.map fun d => Char.ofNat (48 + d)) = n := by
  induction n using Nat.strong_induction_on with
  | _ n ih =>
    rcases Nat.eq_zero_or_pos n with h0 | hpos
    · subst h0; simp [digitsVal]
    · rw [Nat.digits_def' (by norm_num : (1:ℕ) < 10) hpos]
      have hlt : n / 10 < n := Nat.div_lt_self hpos (by norm_num)
      have hmod : n % 10 < 10 := Nat.mod_lt _ (by norm_num)
      rw [List.reverse_cons, List.map_append, digitsVal_append]
      simp only [List.map_cons, List.map_nil, List.foldl_cons, List.foldl_nil]
      rw [ih (n / 10) hlt]
      have hchar : (Char.ofNat (48 + n % 10)).toNat = 48 + n % 10 := by
        set d := n % 10 with hd
        interval_cases d <;> rfl
      rw [hchar]
      omega

lemma digitsRevF_eq (fuel n : ℕ) (h : n ≤ fuel) : digitsRevF fuel n = Nat.digits 10 n := by
  induction fuel generalizing n with
  | zero =>
    have hn : n = 0 := by omega
    subst hn
    rw [Nat.digits_zero]
    rfl
  | succ fuel2 ih =>
    cases n with
    | zero =>
      rw [Nat.digits_zero]
      rfl
    | succ n2 =>
      unfold digitsRevF
      rw [ih ((n2 + 1) / 10) (by omega)]
      rw [Nat.digits_def' (show 1 < 10 by norm_num) (Nat.succ_pos n2)]

lemma digitsVal_natDecimal (n : ℕ) : digitsVal (natDecimal n) = n := by
  unfold natDecimal
  rw [digitsRevF_eq n n le_rfl]
  rcases Nat.eq_zero_or_pos n with h0 | hpos
  · subst h0; rfl
  · rw [if_neg (by omega)]
    exact digitsVal_digitsRev n

lemma natDecimal_ne_nil (n : ℕ) : natDecimal n ≠ [] := by
  unfold natDecimal
  rw [digitsRevF_eq n n le_rfl]
  rcases Nat.eq_zero_or_pos n with h0 | hpos
  · subst h0; simp
  · rw [if_neg (by omega)]
    simp only [ne_eq, List.map_eq_nil_iff, List.reverse_eq_nil_iff]
    exact Nat.digits_ne_nil_iff_ne_zero.mpr (by omega)

lemma natDecimal_all_digits (n : ℕ) : ∀ c ∈ natDecimal n, c.isDigit = true := by
  unfold natDecimal
  rw [digitsRevF_eq n n le_rfl]
  rcases Nat.eq_zero_or_pos n with h0 | hpos
  · subst h0; intro c hc; simp at hc; subst hc; rfl
  · rw [if_neg (by omega)]
    intro c hc
    simp only [List.mem_map, List.mem_reverse] at hc
    obtain ⟨d, hd, rfl⟩ := hc
    have hlt : d < 10 := Nat.digits_lt_base (by norm_num) hd
    interval_cases d <;> rfl

lemma takeWhile_all_append {p : Char → Bool} (ds : List Char) (c : Char) (rest : List Char)
    (hds : ∀ x ∈ ds, p x = true) (hc : p c = false) :
    (ds ++ c :: rest).takeWhile p = ds ∧ (ds ++ c :: rest).dropWhile p = c :: rest := by
  induction ds with
  | nil => simp [List.takeWhile, List.dropWhile, hc]
  | cons a tl ih =>
    have ha : p a = true := hds a (by simp)
    have htl : ∀ x ∈ tl, p x = true := fun x hx => hds x (by simp [hx])
    obtain ⟨h1, h2⟩ := ih htl
    constructor
    · simp [List.takeWhile_cons, ha, h1]
    · simp [List.dropWhile_cons, ha, h2]

lemma takeWhile_all_self {p : Char → Bool} (ds : List Char)
    (hds : ∀ x ∈ ds, p x = true) :
    ds.takeWhile p = ds ∧ ds.dropWhile p = [] := by
  induction ds with
  | nil => simp
  | cons a tl ih =>
    have ha : p a = true := hds a (by simp)
    have htl : ∀ x ∈ tl, p x = true := fun x hx => hds x (by simp [hx])
    obtain ⟨h1, h2⟩ := ih htl
    constructor
    · simp [List.takeWhile_cons, ha, h1]
    · simp [List.dropWhile_cons, ha, h2]

/-! ### parseNumber / parseComponent on rendered numerals -/

lemma parseNumber_natDecimal_cons (n : ℕ) (c : Char) (rest : List Char)
    (hc : c.isDigit = false) (hdot : c ≠ '.') :
    parseNumber (natDecimal n ++ c :: rest) = some ((n : ℚ), c :: rest) := by
  obtain ⟨h1, h2⟩ := takeWhile_all_append (natDecimal n) c rest (natDecimal_all_digits n) hc
  unfold parseNumber
  simp only [h1, h2, if_neg (natDecimal_ne_nil n), List.head?_cons, digitsVal_natDecimal]
  rw [if_neg (by simpa using hdot)]

lemma parseNumber_natDecimal (n : ℕ) :
    parseNumber (natDecimal n) = some ((n : ℚ), []) := by
  obtain ⟨h1, h2⟩ := takeWhile_all_self (natDecimal n) (natDecimal_all_digits n)
  unfold parseNumber
  simp only [h1, h2, if_neg (natDecimal_ne_nil n), List.head?_nil, digitsVal_natDecimal]
  rw [if_neg (by simp)]

lemma parseComponent_consume (letter : Char) (n : ℕ) (rest : List Char)
    (hc : letter.isDigit = false) (hdot : letter ≠ '.') :
    parseComponent letter (natDecimal n ++ letter :: rest) = ((n : ℚ), rest) := by
  unfold parseComponent
  rw [parseNumber_natDecimal_cons n letter rest hc hdot]
  simp

lemma parseComponent_skip (letter c : Char) (n : ℕ) (rest : List Char)
    (hc : c.isDigit = false) (hdot : c ≠ '.') (hne : c ≠ letter) :
    parseComponent letter (natDecimal n ++ c :: rest) = (0, natDecimal n ++ c :: rest) := by
  unfold parseComponent
  rw [parseNumber_natDecimal_cons n c rest hc hdot]
  simp [hne]

lemma parseComponent_nil (letter : Char) : parseComponent letter [] = (0, []) := by
  rfl

lemma parseComponent_last (letter : Char) (n : ℕ)
    (hc : letter.isDigit = false) (hdot : letter ≠ '.') :
    parseComponent letter (natDecimal n ++ [letter]) = ((n : ℚ), []) :=
  parseComponent_consume letter n [] hc hdot

/-! ### Floor arithmetic bridging Python float `//` and `%` to ℕ on integer inputs -/

lemma floor_nat_div (a b : ℕ) (hb : 0 < b) : ⌊(a : ℚ) / (b : ℚ)⌋ = ((a / b : ℕ) : ℤ) := by
  have hbq : (0 : ℚ) < (b : ℚ) := by exact_mod_cast hb
  rw [Int.floor_eq_iff]
  constructor
  · rw [le_div_iff₀ hbq]
    exact_mod_cast Nat.div_mul_le_self a b
  · rw [div_lt_iff₀ hbq]
    have h1 : a < (a / b + 1) * b := by
      have h2 := Nat.div_add_mod a b
      have h3 := Nat.mod_lt a hb
      calc a = b * (a / b) + a % b := h2.symm
        _ < b * (a / b) + b := by omega
        _ = (a / b + 1) * b := by ring
    exact_mod_cast h1

lemma floor_div_3600 (n : ℕ) : ⌊(n : ℚ) / 3600⌋ = ((n / 3600 : ℕ) : ℤ) := by
  have h := floor_nat_div n 3600 (by norm_num)
  exact_mod_cast h

lemma floor_div_60 (n : ℕ) : ⌊(n : ℚ) / 60⌋ = ((n / 60 : ℕ) : ℤ) := by
  have h := floor_nat_div n 60 (by norm_num)
  exact_mod_cast h

lemma fmtHours_natCast (n : ℕ) : fmtHours (n : ℚ) = ((n / 3600 : ℕ) : ℤ) :=
  floor_div_3600 n

lemma fmtRemaining_natCast (n : ℕ) : fmtRemaining (n : ℚ) = ((n % 3600 : ℕ) : ℚ) := by
  unfold fmtRemaining
  rw [floor_div_3600 n, Int.cast_natCast]
  have h2 : (3600 : ℚ) * ((n / 3600 : ℕ) : ℚ) + ((n % 3600 : ℕ) : ℚ) = (n : ℚ) := by
    exact_mod_cast Nat.div_add_mod n 3600
  linarith

lemma fmtMinutes_natCast (n : ℕ) : fmtMinutes (n : ℚ) = ((n % 3600 / 60 : ℕ) : ℤ) := by
  unfold fmtMinutes
  rw [fmtRemaining_natCast]
  exact floor_div_60 (n % 3600)

lemma fmtSecs_natCast (n : ℕ) : fmtSecs (n : ℚ) = ((n % 3600 % 60 : ℕ) : ℚ) := by
  unfold fmtSecs
  rw [fmtRemaining_natCast, floor_div_60 (n % 3600), Int.cast_natCast]
  have h2 : (60 : ℚ) * ((n % 3600 / 60 : ℕ) : ℚ) + ((n % 3600 % 60 : ℕ) : ℚ)
      = ((n % 3600 : ℕ) : ℚ) := by exact_mod_cast Nat.div_add_mod (n % 3600) 60
  linarith

/-! ### parseHMS on every shape format_iso8601_duration can emit -/

lemma parseHMS_shape_HMS (h m s : ℕ) :
    parseHMS (natDecimal h ++ 'H' :: (natDecimal m ++ 'M' :: (natDecimal s ++ ['S'])))
      = (h : ℚ) * 3600 + (m : ℚ) * 60 + (s : ℚ) := by
  unfold parseHMS
  dsimp only
  rw [parseComponent_consume 'H' h _ (by decide) (by decide)]
  dsimp only
  rw [parseComponent_consume 'M' m _ (by decide) (by decide)]
  dsimp only
  rw [parseComponent_last 'S' s (by decide) (by decide)]

lemma parseHMS_shape_HM (h m : ℕ) :
    parseHMS (natDecimal h ++ 'H' :: (natDecimal m ++ ['M']))
      = (h : ℚ) * 3600 + (m : ℚ) * 60 := by
  unfold parseHMS
  dsimp only
  rw [parseComponent_consume 'H' h _ (by decide) (by decide)]
  dsimp only
  rw [parseComponent_last 'M' m (by decide) (by decide)]
  dsimp only
  rw [parseComponent_nil 'S']
  ring

lemma parseHMS_shape_HS (h s : ℕ) :
    parseHMS (natDecimal h ++ 'H' :: (natDecimal s ++ ['S']))
      = (h : ℚ) * 3600 + (s : ℚ) := by
  unfold parseHMS
  dsimp only
  rw [parseComponent_consume 'H' h _ (by decide) (by decide)]
  dsimp only
  rw [parseComponent_skip 'M' 'S' s _ (by decide) (by decide) (by decide)]
  dsimp only
  rw [parseComponent_last 'S' s (by decide) (by decide)]
  ring

lemma parseHMS_shape_H (h : ℕ) :
    parseHMS (natDecimal h ++ ['H']) = (h : ℚ) * 3600 := by
  unfold parseHMS
  dsimp only
  rw [parseComponent_last 'H' h (by decide) (by decide)]
  dsimp only
  rw [parseComponent_nil 'M', parseComponent_nil 'S']
  ring

lemma parseHMS_shape_MS (m s : ℕ) :
    parseHMS (natDecimal m ++ 'M' :: (natDecimal s ++ ['S']))
      = (m : ℚ) * 60 + (s : ℚ) := by
  unfold parseHMS
  dsimp only
  rw [parseComponent_skip 'H' 'M' m _ (by decide) (by decide) (by decide)]
  dsimp only
  rw [parseComponent_consume 'M' m _ (by decide) (by decide)]
  dsimp only
  rw [parseComponent_last 'S' s (by decide) (by decide)]
  ring

lemma parseHMS_shape_M (m : ℕ) :
    parseHMS (natDecimal m ++ ['M']) = (m : ℚ) * 60 := by
  unfold parseHMS
  dsimp only
  rw [parseComponent_skip 'H' 'M' m _ (by decide) (by decide) (by decide)]
  dsimp only
  rw [parseComponent_last 'M' m (by decide) (by decide)]
  dsimp only
  rw [parseComponent_nil 'S']
  ring

lemma parseHMS_shape_S (s : ℕ) :
    parseHMS (natDecimal s ++ ['S']) = (s : ℚ) := by
  unfold parseHMS
  dsimp only
  rw [parseComponent_skip 'H' 'S' s _ (by decide) (by decide) (by decide)]
  dsimp only
  rw [parseComponent_skip 'M' 'S' s _ (by decide) (by decide) (by decide)]
  dsimp only
  rw [parseComponent_last 'S' s (by decide) (by decide)]
  ring

lemma parse_mk_PT (parts : List Char) :
    parse_iso8601_duration (String.mk ('P' :: 'T' :: parts)) = some (parseHMS parts) := by
  unfold parse_iso8601_duration
  simp

lemma parse_format_branch (L : List Char) (q : ℚ) (hne : L ≠ []) (hv : parseHMS L = q) :
    parse_iso8601_duration (if L = [] then "PT0S" else String.mk ('P' :: 'T' :: L)) = some q := by
  rw [if_neg hne, parse_mk_PT, hv]

lemma parse_format_nat (n : ℕ) :
    parse_iso8601_duration (format_iso8601_duration (n : ℚ)) = some (n : ℚ) := by
  have hcl : (if (n : ℚ) < 0 then 0 else (n : ℚ)) = (n : ℚ) :=
    if_neg (not_lt.mpr (by positivity))
  unfold format_iso8601_duration fmtParts fmtSecPart
  rw [hcl, fmtHours_natCast n, fmtMinutes_natCast n, fmtSecs_natCast n]
  simp only [Int.floor_natCast, Int.cast_natCast, Int.toNat_natCast, Int.natCast_pos,
    Nat.cast_eq_zero, Nat.cast_pos, eq_self_iff_true, if_true]
  set h := n / 3600 with hh
  set m := n % 3600 / 60 with hm
  set s := n % 3600 % 60 with hs
  have harith : 3600 * h + 60 * m + s = n := by omega
  by_cases hH : 0 < h <;> by_cases hM : 0 < m
  · by_cases hS : 0 < s
    · rw [if_pos hH, if_pos hM, if_pos (Or.inl hS)]
      simp only [List.append_assoc, List.singleton_append, List.cons_append, List.nil_append]
      apply parse_format_branch
      · simp [natDecimal_ne_nil]
      · rw [parseHMS_shape_HMS]
        have hq : ((3600 * h + 60 * m + s : ℕ) : ℚ) = (n : ℚ) := by exact_mod_cast harith
        push_cast at hq
        linarith
    · have hSc : ¬(0 < s ∨ (h = 0 ∧ m = 0)) := by omega
      rw [if_pos hH, if_pos hM, if_neg hSc]
      simp only [List.append_assoc, List.singleton_append, List.cons_append, List.nil_append,
        List.append_nil]
      apply parse_format_branch
      · simp [natDecimal_ne_nil]
      · rw [parseHMS_shape_HM]
        have hq : ((3600 * h + 60 * m : ℕ) : ℚ) = (n : ℚ) := by
          exact_mod_cast (by omega : 3600 * h + 60 * m = n)
        push_cast at hq
        linarith
  · by_cases hS : 0 < s
    · rw [if_pos hH, if_neg hM, if_pos (Or.inl hS)]
      simp only [List.append_assoc, List.singleton_append, List.cons_append, List.nil_append]
      apply parse_format_branch
      · simp [natDecimal_ne_nil]
      · rw [parseHMS_shape_HS]
        have hq : ((3600 * h + s : ℕ) : ℚ) = (n : ℚ) := by
          exact_mod_cast (by omega : 3600 * h + s = n)
        push_cast at hq
        linarith
    · have hSc : ¬(0 < s ∨ (h = 0 ∧ m = 0)) := by omega
      rw [if_pos hH, if_neg hM, if_neg hSc]
      simp only [List.append_assoc, List.singleton_append, List.cons_append, List.nil_append,
        List.append_nil]
      apply parse_format_branch
      · simp [natDecimal_ne_nil]
      · rw [parseHMS_shape_H]
        have hq : ((3600 * h : ℕ) : ℚ) = (n : ℚ) := by
          exact_mod_cast (by omega : 3600 * h = n)
        push_cast at hq
        linarith
  · by_cases hS : 0 < s
    · rw [if_neg hH, if_pos hM, if_pos (Or.inl hS)]
      simp only [List.append_assoc, List.singleton_append, List.cons_append, List.nil_append]
      apply parse_format_branch
      · simp [natDecimal_ne_nil]
      · rw [parseHMS_shape_MS]
        have hq : ((60 * m + s : ℕ) : ℚ) = (n : ℚ) := by
          exact_mod_cast (by omega : 60 * m + s = n)
        push_cast at hq
        linarith
    · have hSc : ¬(0 < s ∨ (h = 0 ∧ m = 0)) := by omega
      rw [if_neg hH, if_pos hM, if_neg hSc]
      simp only [List.append_assoc, List.singleton_append, List.cons_append, List.nil_append,
        List.append_nil]
      apply parse_format_branch
      · simp [natDecimal_ne_nil]
      · rw [parseHMS_shape_M]
        have hq : ((60 * m : ℕ) : ℚ) = (n : ℚ) := by
          exact_mod_cast (by omega : 60 * m = n)
        push_cast at hq
        linarith
  · rw [if_neg hH, if_neg hM, if_pos (Or.inr (And.intro (by omega) (by omega)))]
    simp only [List.append_assoc, List.singleton_append, List.cons_append, List.nil_append]
    apply parse_format_branch
    · simp [natDecimal_ne_nil]
    · rw [parseHMS_shape_S]
      exact_mod_cast (by omega : s = n)

/-- C3: parsing inverts formatting on every nonnegative whole number of
seconds, and zero formats to the canonical `PT0S`. -/
theorem duration_roundtrip_int :
    (∀ n : ℕ, parse_iso8601_duration (format_iso8601_duration (n : ℚ)) = some (n : ℚ)) ∧
    format_iso8601_duration 0 = "PT0S" := by
  refine ⟨parse_format_nat, ?_⟩
  unfold format_iso8601_duration fmtParts fmtSecPart fmtSecs fmtMinutes fmtRemaining fmtHours
  norm_num
  rfl

/-- C2 (evaluation at the failing input): the component pattern of
`parse_iso8601_duration` is three optional groups, so `re.match` succeeds
on the empty remainder and `"PT"` parses to `0.0` seconds instead of
failing; the `if not match: return None` branch is unreachable. -/
theorem parse_PT_no_component_bug : parse_iso8601_duration "PT" = some 0 := by
  with_unfolding_all rfl

lemma assocGetD_tabulate (l : List (String × String)) (f : String × String → WithTop ℚ)
    (k : String × String) (hk : k ∈ l) :
    assocGetD (l.map (fun ij => (ij, f ij))) k (0 : WithTop ℚ) = f k := by
  induction l with
  | nil => cases hk
  | cons a tl ih =>
    unfold assocGetD
    by_cases hak : a = k
    · subst hak
      rw [List.map_cons, List.find?_cons_of_pos _ (by simp)]
    · rw [List.map_cons, List.find?_cons_of_neg _ (by simp [hak])]
      have hk2 : k ∈ tl := by
        rcases List.mem_cons.mp hk with h | h
        · exact absurd h.symm hak
        · exact h
      have h3 := ih hk2
      unfold assocGetD at h3
      exact h3

lemma stn_consistent_eval (s : STN) (hc : s.consistent_cache = none)
    (hd : s.distance_matrix = none) :
    (s.consistent).1 = true ↔ ∀ p ∈ s.time_points, 0 ≤ s.fwClosure p p := by
  unfold STN.consistent
  rw [hc, hd]
  simp only [List.all_eq_true]
  unfold STN.build_distance_matrix
  by_cases hnil : s.time_points = []
  · simp [hnil]
  · rw [if_neg hnil]
    constructor
    · intro h p hp
      have h2 := h p hp
      have hmem : (p, p) ∈ s.time_points.product s.time_points := by
        rw [List.pair_mem_product]; exact ⟨hp, hp⟩
      rw [assocGetD_tabulate _ _ _ hmem] at h2
      simpa [not_lt] using h2
    · intro h p hp
      have hmem : (p, p) ∈ s.time_points.product s.time_points := by
        rw [List.pair_mem_product]; exact ⟨hp, hp⟩
      rw [assocGetD_tabulate _ _ _ hmem]
      simpa [not_lt] using h p hp

/-- C1: the specification's three-constraint example is reported
inconsistent, and in general `consistent()` evaluated on a network with
invalidated caches (the state every mutation leaves behind) returns true
exactly when every diagonal entry of the Floyd-Warshall closure of the
constraint graph is nonnegative. -/
theorem stn_consistent_iff_diag_nonneg :
    (stnExample.consistent).1 = false ∧
    ∀ s : STN, s.consistent_cache = none → s.distance_matrix = none →
      ((s.consistent).1 = true ↔ ∀ p ∈ s.time_points, 0 ≤ s.fwClosure p p) := by
  constructor
  · set_option maxRecDepth 100000 in with_unfolding_all rfl
  · exact stn_consistent_eval

/-- Witness for C1's general part at a concrete input: the empty network
has empty caches, is consistent, and its closure diagonal is vacuously
nonnegative. -/
theorem stn_consistent_iff_diag_nonneg_witness :
    ((STN.empty "second").consistent).1 = true ↔
      ∀ p ∈ (STN.empty "second").time_points, 0 ≤ (STN.empty "second").fwClosure p p :=
  stn_consistent_iff_diag_nonneg.2 (STN.empty "second") rfl rfl

/-- C6: `add_constraint` with `min > max` raises `ValueError` and does
not record the constraint. -/
theorem stn_add_constraint_min_gt_max_fails :
    ∀ (s : STN) (u v : String) (mn mx : ℚ), mn > mx →
      (s.add_constraint u v (mn, mx)).2 = some "Invalid constraint: min > max" ∧
      (s.add_constraint u v (mn, mx)).1.constraints = s.constraints := by
  intro s u v mn mx h
  unfold STN.add_constraint
  rw [if_pos h]
  exact ⟨rfl, rfl⟩

/-- Witness for C6 at a concrete input. -/
theorem stn_add_constraint_min_gt_max_fails_witness :
    ((STN.empty "second").add_constraint "x" "y" (5, 3)).2
        = some "Invalid constraint: min > max" ∧
    ((STN.empty "second").add_constraint "x" "y" (5, 3)).1.constraints
        = (STN.empty "second").constraints :=
  stn_add_constraint_min_gt_max_fails (STN.empty "second") "x" "y" 5 3 (by norm_num)

/-- C10: the `min > max` failure of `add_constraint` is not atomic: the
error is raised only after both endpoints were added to the point set and
both caches were invalidated, so the receiver is left mutated. -/
theorem stn_add_constraint_error_mutates :
    ∀ (s : STN) (u v : String) (mn mx : ℚ), mn > mx →
      (s.add_constraint u v (mn, mx)).2.isSome = true ∧
      (s.add_constraint u v (mn, mx)).1.time_points = setAdd (setAdd s.time_points u) v ∧
      (s.add_constraint u v (mn, mx)).1.constraints = s.constraints ∧
      (s.add_constraint u v (mn, mx)).1.distance_matrix = none ∧
      (s.add_constraint u v (mn, mx)).1.consistent_cache = none := by
  intro s u v mn mx h
  unfold STN.add_constraint
  rw [if_pos h]
  exact ⟨rfl, rfl, rfl, rfl, rfl⟩

/-- Witness for C10 at a concrete input: the points are present after the
failed call. -/
theorem stn_add_constraint_error_mutates_witness :
    ((STN.empty "second").add_constraint "x" "y" (5, 3)).2.isSome = true ∧
    ((STN.empty "second").add_constraint "x" "y" (5, 3)).1.time_points
        = setAdd (setAdd (STN.empty "second").time_points "x") "y" ∧
    ((STN.empty "second").add_constraint "x" "y" (5, 3)).1.constraints
        = (STN.empty "second").constraints ∧
    ((STN.empty "second").add_constraint "x" "y" (5, 3)).1.distance_matrix = none ∧
    ((STN.empty "second").add_constraint "x" "y" (5, 3)).1.consistent_cache = none :=
  stn_add_constraint_error_mutates (STN.empty "second") "x" "y" 5 3 (by norm_num)

/-- C7: with a well-formed interval, `check_interval_conflicts` returns
exactly the inconsistency verdict of a copy of the network augmented with
the candidate constraint, and returns the receiver unchanged. -/
theorem stn_check_interval_conflicts_frame :
    ∀ (s : STN) (u v : String) (mn mx : ℚ), mn ≤ mx →
      (s.check_interval_conflicts u v mn mx).1
          = some (!((s.copy.add_constraint u v (mn, mx)).1.consistent).1) ∧
      (s.check_interval_conflicts u v mn mx).2 = s := by
  intro s u v mn mx h
  have hng : ¬((mn, mx).1 > (mn, mx).2) := not_lt.mpr h
  simp only [STN.check_interval_conflicts, STN.copy, STN.add_constraint, if_neg hng]
  exact ⟨trivial, trivial⟩

/-- Witness for C7 at a concrete input. -/
theorem stn_check_interval_conflicts_frame_witness :
    (stnExample.check_interval_conflicts "a" "b" 1 2).1
        = some (!((stnExample.copy.add_constraint "a" "b" (1, 2)).1.consistent).1) ∧
    (stnExample.check_interval_conflicts "a" "b" 1 2).2 = stnExample :=
  stn_check_interval_conflicts_frame stnExample "a" "b" 1 2 (by norm_num)

lemma getD_set_ne {α : Type} (l : List α) (i j : ℕ) (x d : α) (h : i ≠ j) :
    (l.set i x).getD j d = l.getD j d := by
  induction l generalizing i j with
  | nil => rfl
  | cons a tl ih =>
    cases i with
    | zero =>
      cases j with
      | zero => exact absurd rfl h
      | succ j2 => rfl
    | succ i2 =>
      cases j with
      | zero => rfl
      | succ j2 => exact ih i2 j2 (fun he => h (by omega))

lemma getD_append_lt {α : Type} (l l2 : List α) (i : ℕ) (d : α) (h : i < l.length) :
    (l ++ l2).getD i d = l.getD i d := by
  induction l generalizing i with
  | nil => cases h
  | cons a tl ih =>
    cases i with
    | zero => rfl
    | succ i2 => exact ih i2 (by simpa using h)

lemma applyOp_preserves (w : HeapWorld) (c : STNRef) (op : STNOp) (i j : ℕ)
    (hi : i ≠ c.tpRef) (hj : j ≠ c.cRef) :
    (applyOp w c op).sets.getD i [] = w.sets.getD i [] ∧
    (applyOp w c op).dicts.getD j [] = w.dicts.getD j [] := by
  cases op with
  | addTimePoint p =>
    exact ⟨getD_set_ne _ _ _ _ _ (fun he => hi he.symm), rfl⟩
  | addConstraint u v mn mx =>
    simp only [applyOp]
    by_cases hc : mn > mx
    · rw [if_pos hc]
      exact ⟨getD_set_ne _ _ _ _ _ (fun he => hi he.symm), rfl⟩
    · rw [if_neg hc]
      refine ⟨getD_set_ne _ _ _ _ _ (fun he => hi he.symm), ?_⟩
      exact getD_set_ne _ _ _ _ _ (fun he => hj he.symm)

lemma applyOps_preserves (c : STNRef) (ops : List STNOp) :
    ∀ (w : HeapWorld) (i j : ℕ), i ≠ c.tpRef → j ≠ c.cRef →
      (applyOps w c ops).sets.getD i [] = w.sets.getD i [] ∧
      (applyOps w c ops).dicts.getD j [] = w.dicts.getD j [] := by
  induction ops with
  | nil => intro w i j hi hj; exact ⟨rfl, rfl⟩
  | cons op tl ih =>
    intro w i j hi hj
    have h1 := applyOp_preserves w c op i j hi hj
    have h2 := ih (applyOp w c op) i j hi hj
    exact ⟨h2.1.trans h1.1, h2.2.trans h1.2⟩

/-- C8: after `c = s.copy()`, any sequence of `add_time_point` and
`add_constraint` calls on `c` leaves the original's point set, its
`get_intervals` constraint list, and its `consistent()` verdict
unchanged. -/
theorem stn_copy_independent :
    ∀ (w : HeapWorld) (s : STNRef) (ops : List STNOp),
      s.tpRef < w.sets.length → s.cRef < w.dicts.length →
      (stnAt (applyOps (heapCopy w s).1 (heapCopy w s).2 ops) s).time_points
          = (stnAt w s).time_points ∧
      (stnAt (applyOps (heapCopy w s).1 (heapCopy w s).2 ops) s).get_intervals
          = (stnAt w s).get_intervals ∧
      ((stnAt (applyOps (heapCopy w s).1 (heapCopy w s).2 ops) s).consistent).1
          = ((stnAt w s).consistent).1 := by
  intro w s ops htp hc
  have hne1 : s.tpRef ≠ ((heapCopy w s).2).tpRef := by
    simp only [heapCopy]
    omega
  have hne2 : s.cRef ≠ ((heapCopy w s).2).cRef := by
    simp only [heapCopy]
    omega
  have hpres := applyOps_preserves ((heapCopy w s).2) ops ((heapCopy w s).1)
    s.tpRef s.cRef hne1 hne2
  have hsets : ((heapCopy w s).1).sets.getD s.tpRef [] = w.sets.getD s.tpRef [] :=
    getD_append_lt _ _ _ _ htp
  have hdicts : ((heapCopy w s).1).dicts.getD s.cRef [] = w.dicts.getD s.cRef [] :=
    getD_append_lt _ _ _ _ hc
  have hstn : stnAt (applyOps (heapCopy w s).1 (heapCopy w s).2 ops) s = stnAt w s := by
    unfold stnAt readPoints readCons
    rw [hpres.1, hpres.2, hsets, hdicts]
  rw [hstn]
  exact ⟨rfl, rfl, rfl⟩

/-- Witness for C8 at a concrete input: one original object in the heap,
one mutating call on the copy. -/
theorem stn_copy_independent_witness :
    (stnAt (applyOps (heapCopy ⟨[["p"]], [[]]⟩ ⟨0, 0⟩).1
        (heapCopy ⟨[["p"]], [[]]⟩ ⟨0, 0⟩).2 [STNOp.addConstraint "x" "y" 1 2]) ⟨0, 0⟩).time_points
        = (stnAt ⟨[["p"]], [[]]⟩ ⟨0, 0⟩).time_points ∧
    (stnAt (applyOps (heapCopy ⟨[["p"]], [[]]⟩ ⟨0, 0⟩).1
        (heapCopy ⟨[["p"]], [[]]⟩ ⟨0, 0⟩).2 [STNOp.addConstraint "x" "y" 1 2]) ⟨0, 0⟩).get_intervals
        = (stnAt ⟨[["p"]], [[]]⟩ ⟨0, 0⟩).get_intervals ∧
    ((stnAt (applyOps (heapCopy ⟨[["p"]], [[]]⟩ ⟨0, 0⟩).1
        (heapCopy ⟨[["p"]], [[]]⟩ ⟨0, 0⟩).2 [STNOp.addConstraint "x" "y" 1 2]) ⟨0, 0⟩).consistent).1
        = ((stnAt ⟨[["p"]], [[]]⟩ ⟨0, 0⟩).consistent).1 :=
  stn_copy_independent ⟨[["p"]], [[]]⟩ ⟨0, 0⟩ [STNOp.addConstraint "x" "y" 1 2]
    (by norm_num) (by norm_num)

lemma mem_keys_assocInsert {α : Type} (d : List (String × α)) (k : String) (v : α)
    (x : String) : x ∈ keys (assocInsert d k v) ↔ x ∈ keys d ∨ x = k := by
  unfold assocInsert keys
  by_cases h : d.any (fun kv => kv.1 = k) = true
  · rw [if_pos h]
    have hk : k ∈ d.map Prod.fst := by
      rcases List.any_eq_true.mp h with ⟨kv, hkv, he⟩
      exact List.mem_map.mpr ⟨kv, hkv, by simpa using he⟩
    rw [List.map_map]
    have hmap : d.map (Prod.fst ∘ fun kv => if kv.1 = k then (k, v) else kv)
        = d.map Prod.fst := by
      apply List.map_congr_left
      intro kv _
      by_cases hkv : kv.1 = k
      · simp [hkv]
      · simp [hkv]
    rw [hmap]
    constructor
    · exact Or.inl
    · rintro (hx | rfl)
      · exact hx
      · exact hk
  · rw [if_neg h]
    simp [List.mem_append]

lemma nodup_keys_assocInsert {α : Type} (d : List (String × α)) (k : String) (v : α)
    (h : (keys d).Nodup) : (keys (assocInsert d k v)).Nodup := by
  unfold assocInsert keys
  by_cases ha : d.any (fun kv => kv.1 = k) = true
  · rw [if_pos ha]
    rw [List.map_map]
    have hmap : d.map (Prod.fst ∘ fun kv => if kv.1 = k then (k, v) else kv)
        = d.map Prod.fst := by
      apply List.map_congr_left
      intro kv _
      by_cases hkv : kv.1 = k
      · simp [hkv]
      · simp [hkv]
    rw [hmap]
    exact h
  · rw [if_neg ha]
    have hk : k ∉ d.map Prod.fst := by
      intro hmem
      rcases List.mem_map.mp hmem with ⟨kv, hkv, he⟩
      exact ha (List.any_eq_true.mpr ⟨kv, hkv, by simp [he]⟩)
    simp only [List.map_append, List.map_cons, List.map_nil]
    rw [List.nodup_append]
    refine ⟨h, List.nodup_singleton k, ?_⟩
    intro x hx hxk
    rw [List.mem_singleton] at hxk
    subst hxk
    exact hk hx

lemma mem_keys_foldl_insert {α β : Type} (f : β → String) (g : β → α) (items : List β) :
    ∀ (d : List (String × α)) (x : String),
      x ∈ keys (items.foldl (fun d i => assocInsert d (f i) (g i)) d) ↔
        x ∈ keys d ∨ x ∈ items.map f := by
  induction items with
  | nil => intro d x; simp
  | cons i tl ih =>
    intro d x
    rw [List.foldl_cons, ih, mem_keys_assocInsert]
    simp only [List.map_cons, List.mem_cons]
    tauto

lemma nodup_keys_foldl_insert {α β : Type} (f : β → String) (g : β → α) (items : List β) :
    ∀ (d : List (String × α)), (keys d).Nodup →
      (keys (items.foldl (fun d i => assocInsert d (f i) (g i)) d)).Nodup := by
  induction items with
  | nil => intro d h; exact h
  | cons i tl ih =>
    intro d h
    rw [List.foldl_cons]
    exact ih _ (nodup_keys_assocInsert d (f i) (g i) h)

lemma keys_length {α : Type} (d : List (String × α)) : (keys d).length = d.length := by
  simp [keys]

lemma sameKeys_of_subset_of_length {α β : Type} (d1 : List (String × α))
    (d2 : List (String × β)) (h1 : (keys d1).Nodup) (h2 : (keys d2).Nodup)
    (hsub : ∀ k ∈ keys d2, k ∈ keys d1) (hlen : d1.length = d2.length) :
    sameKeys d1 d2 := by
  have hfin : (keys d2).toFinset ⊆ (keys d1).toFinset := by
    intro x hx
    exact List.mem_toFinset.mpr (hsub x (List.mem_toFinset.mp hx))
  have hcard : (keys d1).toFinset.card ≤ (keys d2).toFinset.card := by
    rw [List.toFinset_card_of_nodup h1, List.toFinset_card_of_nodup h2,
      keys_length, keys_length, hlen]
  have heq : (keys d2).toFinset = (keys d1).toFinset :=
    Finset.eq_of_subset_of_card_le hfin hcard
  intro k
  constructor
  · intro hk
    exact List.mem_toFinset.mp (heq ▸ List.mem_toFinset.mpr hk)
  · intro hk
    exact List.mem_toFinset.mp (heq.symm ▸ List.mem_toFinset.mpr hk)

lemma declare_actions_inv (a : Actions) (hwf : ActionsWF a) (hinv : ActionsInv a)
    (fs : List ActionFunc) :
    ActionsWF (a.declare_actions fs) ∧ ActionsInv (a.declare_actions fs) := by
  obtain ⟨hwd, hwp, hwc⟩ := hwf
  obtain ⟨hip, hic⟩ := hinv
  unfold Actions.declare_actions ActionsWF ActionsInv sameKeys at *
  refine ⟨⟨?_, ?_, ?_⟩, ?_, ?_⟩
  · exact nodup_keys_foldl_insert _ _ fs _ hwd
  · exact nodup_keys_foldl_insert _ _ fs _ hwp
  · exact nodup_keys_foldl_insert _ _ fs _ hwc
  · intro k
    rw [mem_keys_foldl_insert, mem_keys_foldl_insert, hip k]
  · intro k
    rw [mem_keys_foldl_insert, mem_keys_foldl_insert, hic k]

lemma declare_action_models_inv (a : Actions) (hwf : ActionsWF a) (hinv : ActionsInv a)
    (probs : List (String × (ℕ × ℕ))) (costs : List (String × ℚ))
    (hok : (a.declare_action_models probs costs).2 = none) :
    ActionsWF (a.declare_action_models probs costs).1 ∧
    ActionsInv (a.declare_action_models probs costs).1 := by
  obtain ⟨hwd, hwp, hwc⟩ := hwf
  obtain ⟨hip, hic⟩ := hinv
  have hnp : (keys (probs.foldl (fun d kv => assocInsert d kv.1 kv.2) a.action_prob)).Nodup :=
    nodup_keys_foldl_insert _ _ probs _ hwp
  have hnc : (keys (costs.foldl (fun d kv => assocInsert d kv.1 kv.2) a.action_cost)).Nodup :=
    nodup_keys_foldl_insert _ _ costs _ hwc
  unfold Actions.declare_action_models at hok ⊢
  by_cases h1 : (probs.foldl (fun d kv => assocInsert d kv.1 kv.2) a.action_prob).length
      = a.action_dict.length
  · by_cases h2 : (costs.foldl (fun d kv => assocInsert d kv.1 kv.2) a.action_cost).length
        = a.action_dict.length
    · simp only [h1, h2, if_true, if_pos]
      refine ⟨⟨hwd, hnp, hnc⟩, ?_, ?_⟩
      · exact sameKeys_of_subset_of_length _ _ hnp hwd
          (fun k hk => (mem_keys_foldl_insert _ _ probs _ k).mpr (Or.inl ((hip k).mpr hk))) h1
      · exact sameKeys_of_subset_of_length _ _ hnc hwd
          (fun k hk => (mem_keys_foldl_insert _ _ costs _ k).mpr (Or.inl ((hic k).mpr hk))) h2
    · simp only [h1, h2, if_true, if_false] at hok
      simp at hok
  · simp only [h1, if_false] at hok
    simp at hok

lemma declare_temporal_one_inv (a : Actions) (hwf : ActionsWF a) (hinv : ActionsInv a)
    (item : TItem) :
    ActionsWF (a.declare_temporal_one item).1 ∧ ActionsInv (a.declare_temporal_one item).1 := by
  obtain ⟨hwd, hwp, hwc⟩ := hwf
  obtain ⟨hip, hic⟩ := hinv
  have hstep : ∀ (nm : String) (code : ℕ),
      ActionsWF { a with
        action_dict := assocInsert a.action_dict nm code,
        action_prob := assocInsert a.action_prob nm (1, 0),
        action_cost := assocInsert a.action_cost nm (1 : ℚ) } ∧
      ActionsInv { a with
        action_dict := assocInsert a.action_dict nm code,
        action_prob := assocInsert a.action_prob nm (1, 0),
        action_cost := assocInsert a.action_cost nm (1 : ℚ) } := by
    intro nm code
    refine ⟨⟨nodup_keys_assocInsert _ _ _ hwd, nodup_keys_assocInsert _ _ _ hwp,
      nodup_keys_assocInsert _ _ _ hwc⟩, ?_, ?_⟩
    · intro k
      rw [mem_keys_assocInsert, mem_keys_assocInsert, hip k]
    · intro k
      rw [mem_keys_assocInsert, mem_keys_assocInsert, hic k]
  cases item with
  | two f d =>
    unfold Actions.declare_temporal_one
    by_cases hpresent : a.action_dict.any (fun kv => kv.1 = f.name) = true
    · simp only [hpresent, if_true, if_pos]
      cases hmk : TemporalMetadata.mkD (some d) with
      | mk tm err =>
        cases err with
        | none => exact ⟨⟨hwd, hwp, hwc⟩, hip, hic⟩
        | some e => exact ⟨⟨hwd, hwp, hwc⟩, hip, hic⟩
    · simp only [hpresent, if_false]
      obtain ⟨hw2, hi2⟩ := hstep f.name f.code
      cases hmk : TemporalMetadata.mkD (some d) with
      | mk tm err =>
        cases err with
        | none => exact ⟨hw2, hi2⟩
        | some e => exact ⟨hw2, hi2⟩
  | three nm f d =>
    simp only [Actions.declare_temporal_one]
    obtain ⟨hw2, hi2⟩ := hstep nm f.code
    cases hmk : TemporalMetadata.mkD (some d) with
    | mk tm err =>
      cases err with
      | none => exact ⟨hw2, hi2⟩
      | some e => exact ⟨hw2, hi2⟩

lemma declare_temporal_actions_inv (items : List TItem) :
    ∀ (acc : Actions × Option String), ActionsWF acc.1 → ActionsInv acc.1 →
      ActionsWF (items.foldl (fun acc item =>
        match acc.2 with
        | some _ => acc
        | none => Actions.declare_temporal_one acc.1 item) acc).1 ∧
      ActionsInv (items.foldl (fun acc item =>
        match acc.2 with
        | some _ => acc
        | none => Actions.declare_temporal_one acc.1 item) acc).1 := by
  induction items with
  | nil => intro acc hw hi; exact ⟨hw, hi⟩
  | cons item tl ih =>
    intro acc hw hi
    rw [List.foldl_cons]
    cases hacc : acc.2 with
    | some e =>
      simp only [hacc]
      exact ih acc hw hi
    | none =>
      simp only [hacc]
      obtain ⟨hw2, hi2⟩ := declare_temporal_one_inv acc.1 hw hi item
      exact ih (Actions.declare_temporal_one acc.1 item) hw2 hi2

/-- C9 counterexample: `declare_action_models` first merges the given
maps and only then asserts the key counts, so a call with a key that is
not a declared action raises `AssertionError` while leaving
`action_prob` with a key that `action_dict` lacks: after the call the key
sets differ. -/
theorem actions_keyset_counterexample :
    (Actions.init.declare_action_models [("ghost", (1, 0))] []).2.isSome = true ∧
    ¬ sameKeys (Actions.init.declare_action_models [("ghost", (1, 0))] []).1.action_prob
        (Actions.init.declare_action_models [("ghost", (1, 0))] []).1.action_dict := by
  constructor
  · rfl
  · intro h
    have h1 := (h "ghost").mp (by with_unfolding_all decide)
    revert h1
    with_unfolding_all decide

/-- C9 as amended: starting from a registry whose cost and probability
key sets match the action map (and whose dicts are well formed), the key
sets still match after every `declare_actions` call, after every
`declare_action_models` call that completes without an assertion error,
and after every `declare_temporal_actions` call (even one that raises on
an invalid duration or entry). -/
theorem actions_keyset_invariant :
    ∀ a : Actions, ActionsWF a → ActionsInv a →
      (∀ fs, ActionsInv (a.declare_actions fs)) ∧
      (∀ probs costs, (a.declare_action_models probs costs).2 = none →
          ActionsInv (a.declare_action_models probs costs).1) ∧
      (∀ items, ActionsInv (a.declare_temporal_actions items).1) := by
  intro a hwf hinv
  refine ⟨fun fs => (declare_actions_inv a hwf hinv fs).2,
    fun probs costs hok => (declare_action_models_inv a hwf hinv probs costs hok).2,
    fun items => ?_⟩
  exact (declare_temporal_actions_inv items (a, none) hwf hinv).2

/-- Witness for C9's amended claim at a concrete input. -/
theorem actions_keyset_invariant_witness :
    ActionsInv (Actions.init.declare_actions [⟨"go", 0⟩]) :=
  (actions_keyset_invariant Actions.init
    ⟨List.nodup_nil, List.nodup_nil, List.nodup_nil⟩
    ⟨fun _ => Iff.rfl, fun _ => Iff.rfl⟩).1 [⟨"go", 0⟩]

set_option maxRecDepth 4000 in
lemma monthCheck_all : ∀ doy, doy < 366 → monthCheck doy = true := by decide

set_option maxRecDepth 4000 in
lemma endpointCheck_all : ∀ yoe, yoe < 400 → endpointCheck yoe = true := by decide

set_option maxRecDepth 4000 in
lemma yearLen_all : ∀ yoe, yoe < 400 →
    dfcFx (yoe + 1) - dfcFx yoe = (if eraLeapB yoe then 366 else 365) := by decide

lemma dfcN_step (x : ℕ) : dfcN x ≤ dfcN (x + 1) := by
  unfold dfcN
  omega

lemma dfcN_mono {a b : ℕ} (hab : a ≤ b) : dfcN a ≤ dfcN b := by
  induction b with
  | zero =>
    have : a = 0 := by omega
    subst this
    exact le_refl _
  | succ b ih =>
    rcases Nat.lt_or_ge a (b + 1) with h | h
    · exact (ih (by omega)).trans (dfcN_step b)
    · have : a = b + 1 := by omega
      subst this
      exact le_refl _

lemma dfcG_mono {a b : ℕ} (hab : a ≤ b) : dfcG a ≤ dfcG b :=
  Nat.div_le_div_right (dfcN_mono hab)

lemma dfcF_eq_dfcFx (yoe : ℕ) (h : yoe < 400) : dfcF yoe = dfcFx yoe := by
  unfold dfcF dfcFx
  omega

lemma dfcFx_400 : dfcFx 400 = 146097 := by decide

lemma endpointCheck_split (yoe : ℕ) (h : yoe < 400) :
    dfcG (dfcFx yoe) = yoe ∧ dfcG (dfcFx (yoe + 1) - 1) = yoe := by
  have he := endpointCheck_all yoe h
  simp only [endpointCheck, Bool.and_eq_true, beq_iff_eq] at he
  exact he

lemma dfcG_eq (yoe doe : ℕ) (h4 : yoe < 400) (h1 : dfcFx yoe ≤ doe)
    (h2 : doe < dfcFx (yoe + 1)) : dfcG doe = yoe := by
  obtain ⟨e1, e2⟩ := endpointCheck_split yoe h4
  have hm1 : yoe ≤ dfcG doe := by
    have := dfcG_mono h1
    omega
  have hm2 : dfcG doe ≤ yoe := by
    have := dfcG_mono (show doe ≤ dfcFx (yoe + 1) - 1 by omega)
    omega
  omega

lemma dfcG_bracket (doe : ℕ) (h : doe < 146097) :
    dfcG doe < 400 ∧ dfcFx (dfcG doe) ≤ doe ∧ doe < dfcFx (dfcG doe + 1) := by
  obtain ⟨_, e399⟩ := endpointCheck_split 399 (by norm_num)
  rw [show (399 : ℕ) + 1 = 400 from rfl, dfcFx_400] at e399
  have hyle : dfcG doe ≤ 399 := by
    have := dfcG_mono (show doe ≤ 146097 - 1 by omega)
    omega
  refine ⟨by omega, ?_, ?_⟩
  · by_contra hlt
    push_neg at hlt
    have hy0 : dfcG doe ≠ 0 := by
      intro h0
      rw [h0] at hlt
      have : dfcFx 0 = 0 := rfl
      omega
    obtain ⟨_, e2⟩ := endpointCheck_split (dfcG doe - 1) (by omega)
    rw [show dfcG doe - 1 + 1 = dfcG doe by omega] at e2
    have := dfcG_mono (show doe ≤ dfcFx (dfcG doe) - 1 by omega)
    omega
  · by_contra hge
    push_neg at hge
    by_cases hytop : dfcG doe = 399
    · rw [hytop, show (399 : ℕ) + 1 = 400 from rfl, dfcFx_400] at hge
      omega
    · obtain ⟨e1, _⟩ := endpointCheck_split (dfcG doe + 1) (by omega)
      have := dfcG_mono hge
      omega

lemma civilOfDoe_correct (doe : ℕ) (h : doe < 146097) :
    doeOfCivil (civilOfDoe doe).1 (civilOfDoe doe).2.1 (civilOfDoe doe).2.2 = doe ∧
    (civilOfDoe doe).1 ≤ 399 ∧
    1 ≤ (civilOfDoe doe).2.1 ∧ (civilOfDoe doe).2.1 ≤ 12 ∧
    1 ≤ (civilOfDoe doe).2.2 ∧
    (civilOfDoe doe).2.2 ≤ daysInMonthB (eraLeapB (civilOfDoe doe).1) (civilOfDoe doe).2.1
    := by
  obtain ⟨hy400, hlo, hhi⟩ := dfcG_bracket doe h
  have hFeq : dfcF (dfcG doe) = dfcFx (dfcG doe) := dfcF_eq_dfcFx _ (by omega)
  have hyl := yearLen_all (dfcG doe) (by omega)
  have hdoy366 : doe - dfcF (dfcG doe) < 366 := by
    cases h2 : eraLeapB (dfcG doe) <;> rw [h2] at hyl
    · rw [if_neg Bool.false_ne_true] at hyl
      omega
    · rw [if_pos rfl] at hyl
      omega
  have hmc := monthCheck_all (doe - dfcF (dfcG doe)) hdoy366
  simp only [monthCheck, Bool.and_eq_true, beq_iff_eq, decide_eq_true_eq, Bool.or_eq_true,
    Bool.not_eq_true', decide_eq_false_iff_not] at hmc
  obtain ⟨⟨⟨⟨⟨⟨hmp, hinv⟩, hm1⟩, hm12⟩, hd1⟩, hdnl⟩, hdl⟩ := hmc
  have hc : civilOfDoe doe =
      (dfcG doe, monthOfMp ((5 * (doe - dfcF (dfcG doe)) + 2) / 153),
        (doe - dfcF (dfcG doe)) - (153 * ((5 * (doe - dfcF (dfcG doe)) + 2) / 153) + 2) / 5 + 1)
      := rfl
  rw [hc]
  dsimp only
  refine ⟨?_, by omega, hm1, hm12, hd1, ?_⟩
  · show doeOfCivil _ _ _ = doe
    unfold doeOfCivil
    rw [hmp, hinv]
    omega
  · cases h2 : eraLeapB (dfcG doe)
    · rw [h2] at hyl
      rw [if_neg Bool.false_ne_true] at hyl
      have hdoy365 : doe - dfcF (dfcG doe) < 365 := by omega
      rcases hdnl with hno | hyes
      · exact absurd hdoy365 hno
      · exact hyes
    · exact hdl

lemma isLeapZ_natCast_succ (yoe : ℕ) : isLeapZ ((yoe : ℤ) + 1) = eraLeapB yoe := by
  unfold isLeapZ eraLeapB
  rw [decide_eq_decide]
  omega

lemma daysInMonthB_ne_two (b b2 : Bool) (m : ℕ) (h : m ≠ 2) :
    daysInMonthB b m = daysInMonthB b2 m := by
  unfold daysInMonthB
  rw [if_neg h, if_neg h]

lemma fdiv_shift (a c : ℤ) (hc : 0 < c) : (a + c).fdiv c = a.fdiv c + 1 := by
  have h1 := Int.fmod_add_fdiv a c
  have h2 := Int.fmod_add_fdiv (a + c) c
  have h3 : 0 ≤ a.fmod c := Int.fmod_nonneg' a hc
  have h4 : a.fmod c < c := Int.fmod_lt_of_pos a hc
  have h5 : 0 ≤ (a + c).fmod c := Int.fmod_nonneg' _ hc
  have h6 : (a + c).fmod c < c := Int.fmod_lt_of_pos _ hc
  have key : c * ((a + c).fdiv c - (a.fdiv c + 1)) = a.fmod c - (a + c).fmod c := by
    linear_combination h2 - h1
  by_contra hne
  have hne2 : (a + c).fdiv c - (a.fdiv c + 1) ≠ 0 := fun h0 => hne (by omega)
  rcases lt_or_gt_of_ne hne2 with hlt | hgt
  · have hle : (a + c).fdiv c - (a.fdiv c + 1) ≤ -1 := by omega
    nlinarith
  · have hge : 1 ≤ (a + c).fdiv c - (a.fdiv c + 1) := by omega
    nlinarith

lemma calendarRT_base (doe : ℕ) (h : doe < 146097) : calRT ((doe : ℤ) - 719468) := by
  obtain ⟨hinv, hy399, hm1, hm12, hd1, hdb⟩ := civilOfDoe_correct doe h
  have hz : ((doe : ℤ) - 719468 + 719468) = (doe : ℤ) := by ring
  have hera : ((doe : ℤ)).fdiv 146097 = 0 := by
    rw [Int.fdiv_eq_ediv _ (by norm_num)]
    exact Int.ediv_eq_zero_of_lt (by positivity) (by exact_mod_cast h)
  have hcfd : civilFromDays ((doe : ℤ) - 719468)
      = (((civilOfDoe doe).1 : ℤ) + (if (civilOfDoe doe).2.1 ≤ 2 then 1 else 0),
         (civilOfDoe doe).2.1, (civilOfDoe doe).2.2) := by
    simp only [civilFromDays]
    rw [hz, hera]
    rw [show (doe : ℤ) - 0 * 146097 = (doe : ℤ) by ring, Int.toNat_natCast]
    simp only [Prod.mk.injEq]
    exact ⟨by ring, trivial⟩
  constructor
  · rw [hcfd]
    simp only [daysFromCivil]
    rw [show ((civilOfDoe doe).1 : ℤ) + (if (civilOfDoe doe).2.1 ≤ 2 then (1 : ℤ) else 0)
        - (if (civilOfDoe doe).2.1 ≤ 2 then (1 : ℤ) else 0) = ((civilOfDoe doe).1 : ℤ)
        from by ring]
    have h3 : ((civilOfDoe doe).1 : ℤ).fdiv 400 = 0 := by
      rw [Int.fdiv_eq_ediv _ (by norm_num)]
      exact Int.ediv_eq_zero_of_lt (by positivity)
        (by exact_mod_cast (show (civilOfDoe doe).1 < 400 by omega))
    rw [h3]
    rw [show ((civilOfDoe doe).1 : ℤ) - 0 * 400 = ((civilOfDoe doe).1 : ℤ) by ring,
      Int.toNat_natCast, hinv]
    ring
  · rw [hcfd]
    unfold dateValid
    refine ⟨hm1, hm12, hd1, ?_⟩
    by_cases hm2 : (civilOfDoe doe).2.1 = 2
    · rw [if_pos (by omega), isLeapZ_natCast_succ]
      exact hdb
    · by_cases hmle : (civilOfDoe doe).2.1 ≤ 2
      · rw [if_pos hmle, isLeapZ_natCast_succ]
        exact hdb
      · rw [if_neg hmle]
        rw [daysInMonthB_ne_two _ (eraLeapB (civilOfDoe doe).1) _ hm2]
        exact hdb

lemma civilFromDays_shift (z : ℤ) :
    civilFromDays (z + 146097)
      = ((civilFromDays z).1 + 400, (civilFromDays z).2.1, (civilFromDays z).2.2) := by
  simp only [civilFromDays]
  rw [show z + 146097 + 719468 = z + 719468 + 146097 from by ring,
    fdiv_shift _ _ (by norm_num)]
  rw [show z + 719468 + 146097 - ((z + 719468).fdiv 146097 + 1) * 146097
      = z + 719468 - (z + 719468).fdiv 146097 * 146097 from by ring]
  simp only [Prod.mk.injEq]
  exact ⟨by ring, trivial⟩

lemma daysFromCivil_shift (y : ℤ) (m d : ℕ) :
    daysFromCivil (y + 400) m d = daysFromCivil y m d + 146097 := by
  simp only [daysFromCivil]
  rw [show y + 400 - (if m ≤ 2 then (1 : ℤ) else 0)
      = y - (if m ≤ 2 then (1 : ℤ) else 0) + 400 from by ring,
    fdiv_shift _ _ (by norm_num)]
  rw [show y - (if m ≤ 2 then (1 : ℤ) else 0) + 400
      - ((y - (if m ≤ 2 then (1 : ℤ) else 0)).fdiv 400 + 1) * 400
      = y - (if m ≤ 2 then (1 : ℤ) else 0)
          - (y - (if m ≤ 2 then (1 : ℤ) else 0)).fdiv 400 * 400 from by ring]
  ring

lemma isLeapZ_shift (y : ℤ) : isLeapZ (y + 400) = isLeapZ y := by
  unfold isLeapZ
  rw [decide_eq_decide]
  omega

lemma calRT_shift (z : ℤ) : calRT (z + 146097) ↔ calRT z := by
  unfold calRT dateValid
  rw [civilFromDays_shift]
  dsimp only
  rw [daysFromCivil_shift, isLeapZ_shift]
  constructor
  · rintro ⟨h1, h2⟩
    exact ⟨by omega, h2⟩
  · rintro ⟨h1, h2⟩
    exact ⟨by omega, h2⟩

lemma calRT_shifts (k : ℤ) : ∀ z : ℤ, calRT z → calRT (z + 146097 * k) := by
  induction k using Int.induction_on with
  | hz => intro z hz; simpa using hz
  | hp n ih =>
    intro z hz
    have h1 := ih z hz
    have h2 : z + 146097 * ((n : ℤ) + 1) = z + 146097 * (n : ℤ) + 146097 := by ring
    rw [h2]
    exact (calRT_shift _).mpr h1
  | hn n ih =>
    intro z hz
    have h1 := ih z hz
    have h2 : z + 146097 * (-(n : ℤ)) = z + 146097 * (-(n : ℤ) - 1) + 146097 := by ring
    rw [h2] at h1
    exact (calRT_shift _).mp h1

/-- The calendar conversions invert each other everywhere and always
produce a valid civil date. -/
theorem calendarRT (z : ℤ) : calRT z := by
  have hid := Int.fmod_add_fdiv (z + 719468) 146097
  have hr0 : 0 ≤ (z + 719468).fmod 146097 := Int.fmod_nonneg' _ (by norm_num)
  have hrlt : (z + 719468).fmod 146097 < 146097 := Int.fmod_lt_of_pos _ (by norm_num)
  have base := calendarRT_base ((z + 719468).fmod 146097).toNat (by omega)
  rw [Int.toNat_of_nonneg hr0] at base
  have h2 := calRT_shifts ((z + 719468).fdiv 146097) _ base
  have h3 : (z + 719468).fmod 146097 - 719468
      + 146097 * ((z + 719468).fdiv 146097) = z := by omega
  rw [h3] at h2
  exact h2

lemma rem_bounds (x : ℤ) :
    0 ≤ x - x.fdiv 86400000000 * 86400000000 ∧
    x - x.fdiv 86400000000 * 86400000000 < 86400000000 := by
  have h1 := Int.fmod_add_fdiv x 86400000000
  have h2 : 0 ≤ x.fmod 86400000000 := Int.fmod_nonneg' _ (by norm_num)
  have h3 : x.fmod 86400000000 < 86400000000 := Int.fmod_lt_of_pos _ (by norm_num)
  omega

lemma naiveMicros_dtFromNaiveMicros (x : ℤ) (tz : Option ℤ) :
    naiveMicros (dtFromNaiveMicros x tz) = x := by
  obtain ⟨hr0, hrlt⟩ := rem_bounds x
  have hcal := (calendarRT (x.fdiv 86400000000)).1
  unfold naiveMicros dtFromNaiveMicros
  dsimp only
  rw [hcal]
  have hrem : ((x - x.fdiv 86400000000 * 86400000000).toNat : ℤ)
      = x - x.fdiv 86400000000 * 86400000000 := Int.toNat_of_nonneg hr0
  set rem := (x - x.fdiv 86400000000 * 86400000000).toNat with hremdef
  have hremN : rem < 86400000000 := by omega
  push_cast
  omega

lemma dtValid_dtFromNaiveMicros (x : ℤ) (tz : Option ℤ)
    (hy1 : 1 ≤ (dtFromNaiveMicros x tz).year)
    (hy2 : (dtFromNaiveMicros x tz).year ≤ 9999)
    (htz : ∀ o, tz = some o → -86400 < o ∧ o < 86400) :
    dtValid (dtFromNaiveMicros x tz) := by
  obtain ⟨hr0, hrlt⟩ := rem_bounds x
  have hcal := (calendarRT (x.fdiv 86400000000)).2
  unfold dateValid at hcal
  unfold dtValid dtFromNaiveMicros
  dsimp only
  unfold dtFromNaiveMicros at hy1 hy2
  dsimp only at hy1 hy2
  have hremN : (x - x.fdiv 86400000000 * 86400000000).toNat < 86400000000 := by omega
  refine ⟨hy1, hy2, hcal, by omega, by omega, by omega, by omega, htz⟩

lemma instantSeconds_addMicros (dt dt2 : PyDateTime) (delta : ℤ)
    (h : addMicros dt delta = some dt2) :
    instantSeconds dt2 = instantSeconds dt + (delta : ℚ) / 1000000 ∧ dt2.tz = dt.tz := by
  unfold addMicros at h
  by_cases hc : 1 ≤ (dtFromNaiveMicros (naiveMicros dt + delta) dt.tz).year ∧
      (dtFromNaiveMicros (naiveMicros dt + delta) dt.tz).year ≤ 9999
  · rw [if_pos hc] at h
    have h2 : dt2 = dtFromNaiveMicros (naiveMicros dt + delta) dt.tz := by
      exact (Option.some.injEq _ _ ▸ h).symm
    subst h2
    have h3 := naiveMicros_dtFromNaiveMicros (naiveMicros dt + delta) dt.tz
    constructor
    · unfold instantSeconds
      rw [h3]
      have htz : (dtFromNaiveMicros (naiveMicros dt + delta) dt.tz).tz = dt.tz := rfl
      rw [htz]
      push_cast
      ring
    · rfl
  · rw [if_neg hc] at h
    cases h

/-! ### Rendering/parsing round-trip lemmas -/

lemma natDecimal_length_le (k n : ℕ) (hk : 1 ≤ k) (h : n < 10 ^ k) :
    (natDecimal n).length ≤ k := by
  unfold natDecimal
  rw [digitsRevF_eq n n le_rfl]
  rcases Nat.eq_zero_or_pos n with h0 | hpos
  · subst h0
    simpa using hk
  · rw [if_neg (by omega)]
    rw [List.length_map, List.length_reverse]
    rw [Nat.digits_len 10 n (by norm_num) (by omega)]
    have h2 := Nat.log_lt_of_lt_pow (show n ≠ 0 by omega) h
    omega

lemma padTo_length (k : ℕ) (l : List Char) (h : l.length ≤ k) :
    (padTo k l).length = k := by
  simp [padTo]
  omega

lemma digitsVal_replicate_zero (j : ℕ) (l : List Char) :
    digitsVal (List.replicate j '0' ++ l) = digitsVal l := by
  induction j with
  | zero => rfl
  | succ j2 ih =>
    rw [List.replicate_succ, List.cons_append]
    unfold digitsVal at *
    simp only [List.foldl_cons]
    convert ih using 2

lemma digitsVal_padTo (k n : ℕ) : digitsVal (padTo k (natDecimal n)) = n := by
  unfold padTo
  rw [digitsVal_replicate_zero, digitsVal_natDecimal]

lemma padTo_all_digits (k n : ℕ) : ∀ c ∈ padTo k (natDecimal n), c.isDigit = true := by
  intro c hc
  unfold padTo at hc
  rcases List.mem_append.mp hc with h | h
  · rw [List.eq_of_mem_replicate h]
    rfl
  · exact natDecimal_all_digits n c h

lemma parseFixed_render (k n : ℕ) (rest : List Char) (hk : 1 ≤ k) (h : n < 10 ^ k) :
    parseFixed k (padTo k (natDecimal n) ++ rest) = some (n, rest) := by
  have hval := digitsVal_padTo k n
  have hdig := padTo_all_digits k n
  set P := padTo k (natDecimal n) with hP
  have hlen : P.length = k := padTo_length k _ (natDecimal_length_le k n hk h)
  have htake : (P ++ rest).take k = P := by
    rw [← hlen]
    exact List.take_left _ _
  have hdrop : (P ++ rest).drop k = rest := by
    rw [← hlen]
    exact List.drop_left _ _
  unfold parseFixed
  rw [htake, hdrop, if_pos]
  · rw [hval]
  · exact ⟨hlen, List.all_eq_true.mpr hdig⟩

lemma expectChar_cons (c : Char) (rest : List Char) :
    expectChar c (c :: rest) = some rest := by
  simp [expectChar]

lemma takeWhile_all_prefix {p : Char → Bool} (ds rest : List Char)
    (hds : ∀ x ∈ ds, p x = true)
    (hrest : ∀ c, rest.head? = some c → p c = false) :
    (ds ++ rest).takeWhile p = ds := by
  cases rest with
  | nil =>
    rw [List.append_nil]
    exact (takeWhile_all_self ds hds).1
  | cons c tl => exact (takeWhile_all_append ds c tl hds (hrest c rfl)).1

lemma parseFixed_render_nil (k n : ℕ) (hk : 0 < k) (hn : n < 10 ^ k) :
    parseFixed k (padTo k (natDecimal n)) = some (n, []) := by
  have h := parseFixed_render k n [] hk hn
  rwa [List.append_nil] at h

lemma parseFrac_render (micro : ℕ) (rest : List Char)
    (h1 : micro ≤ 999999)
    (hrest : ∀ c, rest.head? = some c → c.isDigit = false) :
    parseFrac ('.' :: (padTo 6 (natDecimal micro) ++ rest)) = some (micro, rest) := by
  have hdig := padTo_all_digits 6 micro
  have hval := digitsVal_padTo 6 micro
  set P := padTo 6 (natDecimal micro) with hP
  have hlen : P.length = 6 :=
    padTo_length 6 _ (natDecimal_length_le 6 micro (by norm_num) (by omega))
  have htw : (P ++ rest).takeWhile Char.isDigit = P := takeWhile_all_prefix P rest hdig hrest
  unfold parseFrac
  simp only [List.head?_cons, List.tail_cons, if_true]
  rw [htw, hlen]
  rw [if_pos (by norm_num)]
  have hdrop : (P ++ rest).drop 6 = rest := by
    rw [← hlen]
    exact List.drop_left _ _
  rw [hdrop, hval]
  norm_num

lemma parseFrac_skip (cs : List Char) (h : cs.head? ≠ some '.') :
    parseFrac cs = some (0, cs) := by
  unfold parseFrac
  rw [if_neg h]

lemma parseClock_render (h mi s us : ℕ) (rest : List Char)
    (hh : h < 100) (hmi : mi < 100) (hs : s < 100) (hus : us ≤ 999999)
    (hrest : ∀ c, rest.head? = some c → c.isDigit = false ∧ c ≠ '.') :
    parseClock (padTo 2 (natDecimal h) ++ ':' ::
        (padTo 2 (natDecimal mi) ++ ':' ::
          (padTo 2 (natDecimal s) ++
            ((if us ≠ 0 then '.' :: padTo 6 (natDecimal us) else []) ++ rest))))
      = some ((h, mi, s, us), rest) := by
  have hnd : rest.head? ≠ some '.' := by
    intro he
    rcases hh2 : rest.head? with _ | c
    · rw [hh2] at he
      exact Option.noConfusion he
    · rw [hh2] at he
      injection he with h2
      exact (hrest c hh2).2 h2
  unfold parseClock
  rw [parseFixed_render 2 h _ (by norm_num) (by omega)]
  simp only [Option.some_bind]
  rw [expectChar_cons]
  simp only [Option.some_bind]
  rw [parseFixed_render 2 mi _ (by norm_num) (by omega)]
  simp only [Option.some_bind]
  rw [if_pos (by simp), List.tail_cons]
  rw [parseFixed_render 2 s _ (by norm_num) (by omega)]
  simp only [Option.some_bind]
  by_cases hus0 : us = 0
  · subst hus0
    rw [if_neg (by simp), List.nil_append]
    rw [parseFrac_skip rest hnd]
    simp only [Option.some_bind]
  · rw [if_pos hus0, List.cons_append]
    rw [parseFrac_render us rest hus (fun c hc => (hrest c hc).1)]
    simp only [Option.some_bind]

lemma parseOffsetEnd_body (sign : Char) (hsign : sign = '+' ∨ sign = '-')
    (a : ℕ) (ha : a < 86400) :
    parseOffsetEnd (sign ::
        (padTo 2 (natDecimal (a / 3600)) ++
          (':' :: (padTo 2 (natDecimal (a % 3600 / 60)) ++
            (if a % 60 ≠ 0 then ':' :: padTo 2 (natDecimal (a % 60)) else [])))))
      = some (some (if sign = '-' then -(a : ℤ) else (a : ℤ))) := by
  simp only [parseOffsetEnd]
  rw [if_pos hsign]
  by_cases h60 : a % 60 = 0
  · rw [if_neg (by omega), List.append_nil]
    rw [parseFixed_render 2 (a / 3600) _ (by norm_num) (by omega)]
    simp only [Option.some_bind]
    rw [expectChar_cons]
    simp only [Option.some_bind]
    rw [parseFixed_render_nil 2 (a % 3600 / 60) (by norm_num) (by omega)]
    simp only [Option.some_bind]
    rw [show a / 3600 * 3600 + a % 3600 / 60 * 60 = a from by omega]
    rw [if_pos ha]
  · rw [if_pos h60]
    rw [parseFixed_render 2 (a / 3600) _ (by norm_num) (by omega)]
    simp only [Option.some_bind]
    rw [expectChar_cons]
    simp only [Option.some_bind]
    rw [parseFixed_render 2 (a % 3600 / 60) _ (by norm_num) (by omega)]
    simp only [Option.some_bind]
    rw [expectChar_cons]
    simp only [Option.some_bind]
    rw [parseFixed_render_nil 2 (a % 60) (by norm_num) (by omega)]
    simp only [if_true, Option.some_bind]
    rw [show a / 3600 * 3600 + a % 3600 / 60 * 60 + a % 60 = a from by omega]
    rw [if_pos ha]

lemma parseOffsetEnd_render (o : ℤ) (hlo : -86400 < o) (hhi : o < 86400) :
    parseOffsetEnd (renderOffset o) = some (some o) := by
  have ha : o.natAbs < 86400 := by omega
  unfold renderOffset
  simp only [List.append_assoc, List.cons_append]
  by_cases hneg : o < 0
  · rw [if_pos hneg, parseOffsetEnd_body '-' (Or.inr rfl) o.natAbs ha]
    rw [if_pos rfl]
    have hx : -(o.natAbs : ℤ) = o := by omega
    rw [hx]
  · rw [if_neg hneg, parseOffsetEnd_body '+' (Or.inl rfl) o.natAbs ha]
    rw [if_neg (by decide)]
    have hx : (o.natAbs : ℤ) = o := by omega
    rw [hx]

lemma daysInMonthB_le (b : Bool) (m : ℕ) : daysInMonthB b m ≤ 31 := by
  unfold daysInMonthB
  split
  · split <;> omega
  · split <;> omega

lemma renderOffset_head (o : ℤ) (c : Char)
    (hc : (renderOffset o).head? = some c) : c.isDigit = false ∧ c ≠ '.' := by
  unfold renderOffset at hc
  rw [List.head?_cons] at hc
  injection hc with h2
  subst h2
  by_cases hneg : o < 0
  · rw [if_pos hneg]
    exact ⟨by decide, by decide⟩
  · rw [if_neg hneg]
    exact ⟨by decide, by decide⟩

lemma fromisoformatM_render (dt : PyDateTime) (o : ℤ) (hv : dtValid dt)
    (htz : dt.tz = some o) :
    fromisoformatM (isoRender dt) = some dt := by
  obtain ⟨hy1, hy2, ⟨hm1, hm2, hd1, hd2⟩, hh, hmi, hs, hus, htzb⟩ := hv
  obtain ⟨ho1, ho2⟩ := htzb o htz
  have hyt : (dt.year.toNat : ℤ) = dt.year := by omega
  have hd31 : dt.day ≤ 31 := le_trans hd2 (daysInMonthB_le _ _)
  unfold fromisoformatM isoRender
  rw [htz]
  simp only [List.append_assoc, List.cons_append]
  rw [parseFixed_render 4 dt.year.toNat _ (by norm_num) (by omega)]
  simp only [Option.some_bind]
  rw [expectChar_cons]
  simp only [Option.some_bind]
  rw [parseFixed_render 2 dt.month _ (by norm_num) (by omega)]
  simp only [Option.some_bind]
  rw [expectChar_cons]
  simp only [Option.some_bind]
  rw [parseFixed_render 2 dt.day _ (by norm_num) (by omega)]
  simp only [Option.some_bind]
  rw [if_pos (Or.inl trivial)]
  rw [parseClock_render dt.hour dt.minute dt.second dt.micro (renderOffset o)
    (by omega) (by omega) (by omega) hus (fun c hc => renderOffset_head o c hc)]
  simp only [Option.some_bind]
  rw [parseOffsetEnd_render o ho1 ho2]
  simp only [Option.some_bind]
  unfold isoValidate
  rw [hyt]
  rw [if_pos ⟨by omega, hm1, hm2, hd1, hd2, hh, hmi, hs⟩]
  rw [← htz]

lemma digit_ne_plusZ (c : Char) (h : c.isDigit = true) : c ≠ '+' ∧ c ≠ 'Z' := by
  constructor
  · intro he
    subst he
    exact absurd h (by decide)
  · intro he
    subst he
    exact absurd h (by decide)

lemma replaceZ_cons_ne (c : Char) (rest : List Char) (h : c ≠ 'Z') :
    replaceZ (c :: rest) = c :: replaceZ rest := by
  simp only [replaceZ]
  rw [if_neg h]

lemma replaceZ_Z (rest : List Char) :
    replaceZ ('Z' :: rest) = '+' :: '0' :: '0' :: ':' :: '0' :: '0' :: replaceZ rest := by
  simp only [replaceZ]
  rw [if_pos trivial]

lemma replaceZ_append_noZ (A B : List Char) (hA : 'Z' ∉ A) :
    replaceZ (A ++ B) = A ++ replaceZ B := by
  induction A with
  | nil => rfl
  | cons c t ih =>
    have hc : c ≠ 'Z' := fun he => hA (List.mem_cons.mpr (Or.inl he.symm))
    rw [List.cons_append, replaceZ_cons_ne c _ hc,
      ih (fun hm => hA (List.mem_cons_of_mem _ hm)), List.cons_append]

lemma replaceZ_noZ (A : List Char) (hA : 'Z' ∉ A) : replaceZ A = A := by
  have h := replaceZ_append_noZ A [] hA
  rw [show replaceZ [] = [] from rfl, List.append_nil] at h
  exact h

lemma replacePlus00F_noPlus (l : List Char) (hl : '+' ∉ l) :
    ∀ f, replacePlus00F f l = l := by
  induction l with
  | nil =>
    intro f
    cases f <;> rfl
  | cons c t ih =>
    intro f
    cases f with
    | zero => rfl
    | succ f2 =>
      simp only [replacePlus00F]
      rw [if_neg (fun hand => hl (List.mem_cons.mpr (Or.inl hand.1.symm)))]
      rw [ih (fun hm => hl (List.mem_cons_of_mem _ hm)) f2]

lemma replacePlus00F_append (A B : List Char) (hA : '+' ∉ A) :
    ∀ f, replacePlus00F (A.length + f) (A ++ B) = A ++ replacePlus00F f B := by
  induction A with
  | nil =>
    intro f
    simp
  | cons c t ih =>
    intro f
    rw [List.cons_append]
    rw [show (c :: t).length + f = t.length + f + 1 from by simp [List.length_cons]; omega]
    simp only [replacePlus00F]
    rw [if_neg (fun hand => hA (List.mem_cons.mpr (Or.inl hand.1.symm)))]
    rw [ih (fun hm => hA (List.mem_cons_of_mem _ hm)) f, List.cons_append]

lemma replacePlus00F_hit (B : List Char) (f : ℕ) :
    replacePlus00F (f + 1) ('+' :: '0' :: '0' :: ':' :: '0' :: '0' :: B) =
      'Z' :: replacePlus00F f B := by
  simp only [replacePlus00F]
  rw [if_pos ⟨trivial, rfl⟩]
  rfl

lemma replacePlus00F_miss (c : Char) (B : List Char) (f : ℕ)
    (h : ¬(c = '+' ∧ B.take 5 = ['0', '0', ':', '0', '0'])) :
    replacePlus00F (f + 1) (c :: B) = c :: replacePlus00F f B := by
  simp only [replacePlus00F]
  rw [if_neg h]

lemma pad2_eq_zero (n : ℕ) (h : padTo 2 (natDecimal n) = ['0', '0']) : n = 0 := by
  have h1 := digitsVal_padTo 2 n
  rw [h] at h1
  have h0 : digitsVal ['0', '0'] = 0 := rfl
  omega

lemma renderOffsetRest_mem (o : ℤ) (c : Char)
    (hc : c ∈ (padTo 2 (natDecimal (o.natAbs / 3600)) ++ ':' :: padTo 2 (natDecimal (o.natAbs % 3600 / 60))
      ++ (if o.natAbs % 60 ≠ 0 then ':' :: padTo 2 (natDecimal (o.natAbs % 60)) else []))) :
    c = ':' ∨ c.isDigit = true := by
  rcases List.mem_append.mp hc with h3 | h4
  · rcases List.mem_append.mp h3 with h5 | h6
    · exact Or.inr (padTo_all_digits _ _ _ h5)
    · rcases List.mem_cons.mp h6 with h7 | h8
      · exact Or.inl h7
      · exact Or.inr (padTo_all_digits _ _ _ h8)
  · by_cases h60 : o.natAbs % 60 ≠ 0
    · rw [if_pos h60] at h4
      rcases List.mem_cons.mp h4 with h7 | h8
      · exact Or.inl h7
      · exact Or.inr (padTo_all_digits _ _ _ h8)
    · rw [if_neg h60] at h4
      exact absurd h4 (List.not_mem_nil c)

lemma renderOffset_noZ (o : ℤ) : 'Z' ∉ renderOffset o := by
  intro hm
  unfold renderOffset at hm
  rcases List.mem_cons.mp hm with h1 | h2
  · by_cases hneg : o < 0
    · rw [if_pos hneg] at h1
      exact absurd h1 (by decide)
    · rw [if_neg hneg] at h1
      exact absurd h1 (by decide)
  · rcases renderOffsetRest_mem o 'Z' h2 with h | h
    · exact absurd h (by decide)
    · exact absurd h (by decide)

lemma renderOffset_getLast (o : ℤ) (h36 : o.natAbs % 3600 / 60 < 100) (h6 : o.natAbs % 60 < 100) :
    ∃ c, (renderOffset o).getLast? = some c ∧ c.isDigit = true := by
  unfold renderOffset
  by_cases h60 : o.natAbs % 60 ≠ 0
  · rw [if_pos h60]
    have hlen2 : (padTo 2 (natDecimal (o.natAbs % 60))).length = 2 :=
      padTo_length _ _ (natDecimal_length_le _ _ (by norm_num) (by omega))
    have hne2 : padTo 2 (natDecimal (o.natAbs % 60)) ≠ [] := fun h0 => by
      rw [h0] at hlen2
      exact absurd hlen2 (by decide)
    refine ⟨(padTo 2 (natDecimal (o.natAbs % 60))).getLast hne2, ?_,
      padTo_all_digits _ _ _ (List.getLast_mem hne2)⟩
    rw [show ((if o < 0 then '-' else '+') ::
        (padTo 2 (natDecimal (o.natAbs / 3600)) ++ ':' :: padTo 2 (natDecimal (o.natAbs % 3600 / 60))
          ++ ':' :: padTo 2 (natDecimal (o.natAbs % 60))))
      = ([(if o < 0 then '-' else '+')] ++
          ((padTo 2 (natDecimal (o.natAbs / 3600)) ++ ':' :: padTo 2 (natDecimal (o.natAbs % 3600 / 60)))
            ++ ([':'] ++ padTo 2 (natDecimal (o.natAbs % 60))))) from rfl]
    rw [List.getLast?_append_of_ne_nil _ (by simp)]
    rw [List.getLast?_append_of_ne_nil _ (by simpa using hne2)]
    rw [List.getLast?_append_of_ne_nil _ hne2]
    exact List.getLast?_eq_getLast _ hne2
  · rw [if_neg h60, List.append_nil]
    have hlen2 : (padTo 2 (natDecimal (o.natAbs % 3600 / 60))).length = 2 :=
      padTo_length _ _ (natDecimal_length_le _ _ (by norm_num) (by omega))
    have hne2 : padTo 2 (natDecimal (o.natAbs % 3600 / 60)) ≠ [] := fun h0 => by
      rw [h0] at hlen2
      exact absurd hlen2 (by decide)
    refine ⟨(padTo 2 (natDecimal (o.natAbs % 3600 / 60))).getLast hne2, ?_,
      padTo_all_digits _ _ _ (List.getLast_mem hne2)⟩
    rw [show ((if o < 0 then '-' else '+') ::
        (padTo 2 (natDecimal (o.natAbs / 3600)) ++ ':' :: padTo 2 (natDecimal (o.natAbs % 3600 / 60))))
      = ([(if o < 0 then '-' else '+')] ++
          (padTo 2 (natDecimal (o.natAbs / 3600)) ++ ([':'] ++ padTo 2 (natDecimal (o.natAbs % 3600 / 60))))) from rfl]
    rw [List.getLast?_append_of_ne_nil _ (by simp)]
    rw [List.getLast?_append_of_ne_nil _ (by simpa using hne2)]
    rw [List.getLast?_append_of_ne_nil _ hne2]
    exact List.getLast?_eq_getLast _ hne2

lemma renderOffset_ne_nil (o : ℤ) : renderOffset o ≠ [] := by
  unfold renderOffset
  exact List.cons_ne_nil _ _

lemma pyPreprocess_round (A : List Char) (o : ℤ)
    (hA : ∀ c ∈ A, c ≠ '+' ∧ c ≠ 'Z')
    (ho1 : -86400 < o) (ho2 : o < 86400) :
    pyPreprocess (replacePlus00 (A ++ renderOffset o)) = A ++ renderOffset o := by
  have hAp : '+' ∉ A := fun hm => (hA _ hm).1 rfl
  have hAz : 'Z' ∉ A := fun hm => (hA _ hm).2 rfl
  have hRz : 'Z' ∉ renderOffset o := renderOffset_noZ o
  unfold replacePlus00
  rw [List.length_append, replacePlus00F_append A _ hAp]
  by_cases h0 : o = 0
  · subst h0
    rw [show replacePlus00F (renderOffset 0).length (renderOffset 0) = ['Z'] from rfl]
    unfold pyPreprocess
    rw [List.getLast?_append_of_ne_nil A (by simp)]
    rw [show (['Z'] : List Char).getLast? = some 'Z' from rfl]
    rw [if_pos rfl]
    rw [List.dropLast_concat]
    rw [replaceZ_append_noZ A _ hAz]
    rw [show replaceZ ['+', '0', '0', ':', '0', '0'] = ['+', '0', '0', ':', '0', '0'] from rfl]
    rw [show renderOffset 0 = ['+', '0', '0', ':', '0', '0'] from rfl]
  by_cases hsm : 0 < o ∧ o < 60
  · obtain ⟨hg, hl⟩ := hsm
    have hR : renderOffset o
        = '+' :: '0' :: '0' :: ':' :: '0' :: '0' :: ':' :: padTo 2 (natDecimal o.natAbs) := by
      unfold renderOffset
      rw [if_neg (by omega)]
      rw [show o.natAbs / 3600 = 0 from by omega, show o.natAbs % 3600 / 60 = 0 from by omega]
      rw [if_pos (show o.natAbs % 60 ≠ 0 from by omega), show o.natAbs % 60 = o.natAbs from by omega]
      rfl
    rw [hR]
    simp only [List.length_cons]
    rw [replacePlus00F_hit]
    rw [replacePlus00F_noPlus _ (fun hm => by
      rcases List.mem_cons.mp hm with h1 | h2
      · exact absurd h1 (by decide)
      · exact absurd (padTo_all_digits _ _ _ h2) (by decide))]
    unfold pyPreprocess
    have hlen2 : (padTo 2 (natDecimal o.natAbs)).length = 2 :=
      padTo_length _ _ (natDecimal_length_le _ _ (by norm_num) (by omega))
    have hne2 : padTo 2 (natDecimal o.natAbs) ≠ [] := fun h => by
      rw [h] at hlen2
      exact absurd hlen2 (by decide)
    rw [List.getLast?_append_of_ne_nil A (by simp)]
    rw [show ('Z' :: ':' :: padTo 2 (natDecimal o.natAbs))
      = ['Z', ':'] ++ padTo 2 (natDecimal o.natAbs) from rfl]
    rw [List.getLast?_append_of_ne_nil _ hne2]
    rw [List.getLast?_eq_getLast _ hne2]
    have hcd := padTo_all_digits 2 o.natAbs _ (List.getLast_mem hne2)
    rw [if_neg (fun he => by
      injection he with h2
      exact (digit_ne_plusZ _ hcd).2 h2)]
    rw [replaceZ_append_noZ A _ hAz]
    rw [show (['Z', ':'] ++ padTo 2 (natDecimal o.natAbs))
      = 'Z' :: ':' :: padTo 2 (natDecimal o.natAbs) from rfl]
    rw [replaceZ_Z, replaceZ_cons_ne ':' _ (by decide)]
    rw [replaceZ_noZ _ (fun hm => absurd (padTo_all_digits _ _ _ hm) (by decide))]
  · -- the offset renders without any '+00:00' occurrence: replacement is the identity
    have hrestnp : '+' ∉ (padTo 2 (natDecimal (o.natAbs / 3600)) ++ ':' :: padTo 2 (natDecimal (o.natAbs % 3600 / 60))
        ++ (if o.natAbs % 60 ≠ 0 then ':' :: padTo 2 (natDecimal (o.natAbs % 60)) else [])) := by
      intro hm
      rcases renderOffsetRest_mem o '+' hm with h | h
      · exact absurd h (by decide)
      · exact absurd h (by decide)
    have hid : replacePlus00F (renderOffset o).length (renderOffset o) = renderOffset o := by
      by_cases hneg : o < 0
      · refine replacePlus00F_noPlus _ ?_ _
        intro hm
        unfold renderOffset at hm
        rw [if_pos hneg] at hm
        rcases List.mem_cons.mp hm with h1 | h2
        · exact absurd h1 (by decide)
        · exact hrestnp h2
      · have h60 : 60 ≤ o := by omega
        have hnotboth : ¬(o.natAbs / 3600 = 0 ∧ o.natAbs % 3600 / 60 = 0) := by omega
        have hlP : (padTo 2 (natDecimal (o.natAbs / 3600))).length = 2 :=
          padTo_length _ _ (natDecimal_length_le _ _ (by norm_num) (by omega))
        have hlQ : (padTo 2 (natDecimal (o.natAbs % 3600 / 60))).length = 2 :=
          padTo_length _ _ (natDecimal_length_le _ _ (by norm_num) (by omega))
        unfold renderOffset
        rw [if_neg hneg]
        simp only [List.length_cons]
        rw [replacePlus00F_miss _ _ _ ?hmiss]
        case hmiss =>
          intro hcon
          obtain ⟨-, htake⟩ := hcon
          have hY : (padTo 2 (natDecimal (o.natAbs / 3600))
              ++ ':' :: padTo 2 (natDecimal (o.natAbs % 3600 / 60))).length = 5 := by
            simp [List.length_append, List.length_cons, hlP, hlQ]
          have ht := List.take_left
            (padTo 2 (natDecimal (o.natAbs / 3600)) ++ ':' :: padTo 2 (natDecimal (o.natAbs % 3600 / 60)))
            (if o.natAbs % 60 ≠ 0 then ':' :: padTo 2 (natDecimal (o.natAbs % 60)) else [])
          rw [hY] at ht
          rw [ht] at htake
          have h1 := congrArg (List.take 2) htake
          have ht2 := List.take_left (padTo 2 (natDecimal (o.natAbs / 3600)))
            (':' :: padTo 2 (natDecimal (o.natAbs % 3600 / 60)))
          rw [hlP] at ht2
          rw [ht2] at h1
          rw [show List.take 2 (['0', '0', ':', '0', '0'] : List Char) = ['0', '0'] from rfl] at h1
          have h2 := congrArg (List.drop 3) htake
          have htk3 : (padTo 2 (natDecimal (o.natAbs / 3600)) ++ [':']).length = 3 := by
            simp [hlP]
          have hassoc : padTo 2 (natDecimal (o.natAbs / 3600))
                ++ ':' :: padTo 2 (natDecimal (o.natAbs % 3600 / 60))
              = (padTo 2 (natDecimal (o.natAbs / 3600)) ++ [':'])
                ++ padTo 2 (natDecimal (o.natAbs % 3600 / 60)) := by
            simp
          rw [hassoc] at h2
          have ht3 := List.drop_left (padTo 2 (natDecimal (o.natAbs / 3600)) ++ [':'])
            (padTo 2 (natDecimal (o.natAbs % 3600 / 60)))
          rw [htk3] at ht3
          rw [ht3] at h2
          rw [show List.drop 3 (['0', '0', ':', '0', '0'] : List Char) = ['0', '0'] from rfl] at h2
          exact hnotboth ⟨pad2_eq_zero _ h1, pad2_eq_zero _ h2⟩
        rw [replacePlus00F_noPlus _ hrestnp]
    rw [hid]
    unfold pyPreprocess
    obtain ⟨c, hc, hcd⟩ := renderOffset_getLast o (by omega) (by omega)
    rw [List.getLast?_append_of_ne_nil A (renderOffset_ne_nil o)]
    rw [hc]
    rw [if_neg (fun he => by
      injection he with h2
      exact (digit_ne_plusZ c hcd).2 h2)]
    rw [replaceZ_append_noZ A _ hAz, replaceZ_noZ _ hRz]

lemma isoBody_mem (dt : PyDateTime) (c : Char)
    (hc : c ∈ (padTo 4 (natDecimal dt.year.toNat)
      ++ '-' :: padTo 2 (natDecimal dt.month) ++ '-' :: padTo 2 (natDecimal dt.day)
      ++ 'T' :: padTo 2 (natDecimal dt.hour) ++ ':' :: padTo 2 (natDecimal dt.minute)
      ++ ':' :: padTo 2 (natDecimal dt.second)
      ++ (if dt.micro ≠ 0 then '.' :: padTo 6 (natDecimal dt.micro) else []))) :
    c ≠ '+' ∧ c ≠ 'Z' := by
  have hd : c.isDigit = true → c ≠ '+' ∧ c ≠ 'Z' := digit_ne_plusZ c
  rcases List.mem_append.mp hc with h6 | hfrac
  · rcases List.mem_append.mp h6 with h5 | hsec
    · rcases List.mem_append.mp h5 with h4 | hmin
      · rcases List.mem_append.mp h4 with h3 | hhour
        · rcases List.mem_append.mp h3 with h2 | hday
          · rcases List.mem_append.mp h2 with h1 | hmon
            · exact hd (padTo_all_digits _ _ _ h1)
            · rcases List.mem_cons.mp hmon with he | hm
              · subst he
                exact ⟨by decide, by decide⟩
              · exact hd (padTo_all_digits _ _ _ hm)
          · rcases List.mem_cons.mp hday with he | hm
            · subst he
              exact ⟨by decide, by decide⟩
            · exact hd (padTo_all_digits _ _ _ hm)
        · rcases List.mem_cons.mp hhour with he | hm
          · subst he
            exact ⟨by decide, by decide⟩
          · exact hd (padTo_all_digits _ _ _ hm)
      · rcases List.mem_cons.mp hmin with he | hm
        · subst he
          exact ⟨by decide, by decide⟩
        · exact hd (padTo_all_digits _ _ _ hm)
    · rcases List.mem_cons.mp hsec with he | hm
      · subst he
        exact ⟨by decide, by decide⟩
      · exact hd (padTo_all_digits _ _ _ hm)
  · by_cases hm0 : dt.micro ≠ 0
    · rw [if_pos hm0] at hfrac
      rcases List.mem_cons.mp hfrac with he | hm
      · subst he
        exact ⟨by decide, by decide⟩
      · exact hd (padTo_all_digits _ _ _ hm)
    · rw [if_neg hm0] at hfrac
      exact absurd hfrac (List.not_mem_nil c)

lemma parse_format_datetime (lo : ℤ) (dt : PyDateTime) (o : ℤ)
    (hv : dtValid dt) (htz : dt.tz = some o) :
    parse_iso8601_datetime (format_iso8601_datetime lo dt) = some dt := by
  obtain ⟨ho1, ho2⟩ := hv.2.2.2.2.2.2.2 o htz
  have hsplit : isoRender dt = (padTo 4 (natDecimal dt.year.toNat)
      ++ '-' :: padTo 2 (natDecimal dt.month) ++ '-' :: padTo 2 (natDecimal dt.day)
      ++ 'T' :: padTo 2 (natDecimal dt.hour) ++ ':' :: padTo 2 (natDecimal dt.minute)
      ++ ':' :: padTo 2 (natDecimal dt.second)
      ++ (if dt.micro ≠ 0 then '.' :: padTo 6 (natDecimal dt.micro) else []))
      ++ renderOffset o := by
    unfold isoRender
    rw [htz]
  unfold parse_iso8601_datetime format_iso8601_datetime
  simp only [htz]
  show fromisoformatM (pyPreprocess (replacePlus00 (isoRender dt))) = some dt
  rw [hsplit, pyPreprocess_round _ o (fun c hc => isoBody_mem dt c hc) ho1 ho2, ← hsplit]
  exact fromisoformatM_render dt o hv htz

lemma char_digit_bounds (c : Char) (h : c.isDigit = true) : 48 ≤ c.toNat ∧ c.toNat ≤ 57 := by
  simp only [Char.isDigit, Bool.and_eq_true, decide_eq_true_eq] at h
  exact h

lemma digitsVal_foldl_lt (l : List Char) (hl : ∀ c ∈ l, c.isDigit = true) :
    ∀ x, l.foldl (fun x c => 10 * x + (c.toNat - 48)) x < (x + 1) * 10 ^ l.length := by
  induction l with
  | nil =>
    intro x
    simpa using Nat.lt_succ_self x
  | cons c t ih =>
    intro x
    rw [List.foldl_cons]
    have hc := char_digit_bounds c (hl c (List.mem_cons_self c t))
    have h1 := ih (fun d hd => hl d (List.mem_cons_of_mem c hd)) (10 * x + (c.toNat - 48))
    have h2 : (10 * x + (c.toNat - 48) + 1) * 10 ^ t.length ≤ (x + 1) * 10 ^ (c :: t).length := by
      rw [List.length_cons, pow_succ]
      have h3 : 10 * x + (c.toNat - 48) + 1 ≤ (x + 1) * 10 := by omega
      calc (10 * x + (c.toNat - 48) + 1) * 10 ^ t.length
          ≤ (x + 1) * 10 * 10 ^ t.length := Nat.mul_le_mul_right _ h3
        _ = (x + 1) * (10 ^ t.length * 10) := by ring
    omega

lemma digitsVal_lt (l : List Char) (hl : ∀ c ∈ l, c.isDigit = true) :
    digitsVal l < 10 ^ l.length := by
  have h := digitsVal_foldl_lt l hl 0
  simpa [digitsVal] using h

lemma rstrip_decomp (c : Char) (l : List Char) :
    ∃ k, l = rstripCh c l ++ List.replicate k c := by
  refine ⟨(l.reverse.takeWhile (fun x => x = c)).length, ?_⟩
  have h1 : l = (l.reverse.dropWhile (fun x => x = c)).reverse
      ++ (l.reverse.takeWhile (fun x => x = c)).reverse := by
    rw [← List.reverse_append, List.takeWhile_append_dropWhile, List.reverse_reverse]
  have h2 : l.reverse.takeWhile (fun x => x = c)
      = List.replicate (l.reverse.takeWhile (fun x => x = c)).length c := by
    apply List.eq_replicate_of_mem
    intro x hx
    have h3 := List.mem_takeWhile_imp hx
    simpa using h3
  unfold rstripCh
  conv_lhs => rw [h1]
  congr 1
  rw [h2, List.reverse_replicate, List.length_replicate]

lemma rstrip_zero_ne_nil (l : List Char) (h : digitsVal l ≠ 0) :
    rstripCh '0' l ≠ [] := by
  intro h0
  obtain ⟨k, hk⟩ := rstrip_decomp '0' l
  rw [h0, List.nil_append] at hk
  apply h
  rw [hk, ← List.append_nil (List.replicate k '0'), digitsVal_replicate_zero]
  rfl

lemma digitsVal_append_replicate_zero (l : List Char) (k : ℕ) :
    digitsVal (l ++ List.replicate k '0') = digitsVal l * 10 ^ k := by
  induction k with
  | zero => simp
  | succ k2 ih =>
    rw [List.replicate_succ', ← List.append_assoc, digitsVal_append]
    simp only [List.foldl_cons, List.foldl_nil]
    rw [ih]
    have h0 : ('0'.toNat - 48) = 0 := rfl
    rw [h0, pow_succ]
    ring

lemma rstrip_sub_digits (l : List Char) (hl : ∀ c ∈ l, c.isDigit = true) :
    ∀ c ∈ rstripCh '0' l, c.isDigit = true := by
  intro c hc
  obtain ⟨k, hk⟩ := rstrip_decomp '0' l
  exact hl c (by rw [hk]; exact List.mem_append.mpr (Or.inl hc))

lemma rstripCh_append (c : Char) (A B : List Char) (hB : rstripCh c B ≠ []) :
    rstripCh c (A ++ B) = A ++ rstripCh c B := by
  have hne : B.reverse.dropWhile (fun x => x = c) ≠ [] := fun h => hB (by
    unfold rstripCh
    rw [h]
    rfl)
  unfold rstripCh
  rw [List.reverse_append, List.dropWhile_append,
    if_neg (fun hcon => hne (List.isEmpty_iff.mp hcon))]
  rw [List.reverse_append, List.reverse_reverse]

lemma rstripCh_all_ne (c : Char) (l : List Char) (h : ∀ x ∈ l, x ≠ c) :
    rstripCh c l = l := by
  obtain ⟨k, hk⟩ := rstrip_decomp c l
  cases k with
  | zero =>
    conv_rhs => rw [hk]
    simp
  | succ k2 =>
    exfalso
    refine h c ?_ rfl
    rw [hk]
    exact List.mem_append.mpr (Or.inr (List.mem_replicate.mpr ⟨Nat.succ_ne_zero k2, rfl⟩))

lemma padSix_eq_padTo (l : List Char) : padSix l = padTo 6 l := rfl

lemma floor_half_add_nat (B : ℕ) : ⌊((B : ℚ)) + 1 / 2⌋ = (B : ℤ) := by
  rw [add_comm, Int.floor_add_nat]
  norm_num

lemma fracRender_struct (B : ℕ) (hb : B % 1000000 ≠ 0) :
    fracRender ((B : ℚ) / 1000000)
      = natDecimal (B / 1000000)
        ++ '.' :: rstripCh '0' (padTo 6 (natDecimal (B % 1000000))) := by
  unfold fracRender
  dsimp only
  rw [show (B : ℚ) / 1000000 * 1000000 = (B : ℚ) from by field_simp, floor_half_add_nat]
  rw [show ((B : ℤ) / 1000000).toNat = B / 1000000 from by omega,
    show ((B : ℤ) % 1000000).toNat = B % 1000000 from by omega]
  rw [padSix_eq_padTo]
  set F := rstripCh '0' (padTo 6 (natDecimal (B % 1000000))) with hF
  have hFne : F ≠ [] := by
    rw [hF]
    apply rstrip_zero_ne_nil
    rw [digitsVal_padTo]
    exact hb
  have hFdig : ∀ c ∈ F, c.isDigit = true := by
    rw [hF]
    exact rstrip_sub_digits _ (padTo_all_digits 6 (B % 1000000))
  have hstep1 : rstripCh '0' (natDecimal (B / 1000000) ++ '.' :: padTo 6 (natDecimal (B % 1000000)))
      = (natDecimal (B / 1000000) ++ ['.']) ++ F := by
    rw [show natDecimal (B / 1000000) ++ '.' :: padTo 6 (natDecimal (B % 1000000))
      = (natDecimal (B / 1000000) ++ ['.']) ++ padTo 6 (natDecimal (B % 1000000)) from by simp]
    rw [rstripCh_append '0' _ _ (by rw [← hF]; exact hFne)]
  rw [hstep1]
  have hFdot : ∀ x ∈ F, x ≠ '.' := fun x hx heq => by
    have := hFdig x hx
    rw [heq] at this
    exact absurd this (by decide)
  rw [rstripCh_append '.' _ _ (by rw [rstripCh_all_ne '.' F hFdot]; exact hFne)]
  rw [rstripCh_all_ne '.' F hFdot]
  simp

lemma parseNumber_frac (a : ℕ) (F : List Char) (c : Char) (rest : List Char)
    (hF : ∀ x ∈ F, x.isDigit = true) (hFne : F ≠ [])
    (hc : c.isDigit = false) (hdot : c ≠ '.') :
    parseNumber (natDecimal a ++ '.' :: (F ++ c :: rest))
      = some ((a : ℚ) + (digitsVal F : ℚ) / 10 ^ F.length, c :: rest) := by
  obtain ⟨h1, h2⟩ := takeWhile_all_append (natDecimal a) '.' (F ++ c :: rest)
    (natDecimal_all_digits a) (by decide)
  unfold parseNumber
  simp only [h1, h2, if_neg (natDecimal_ne_nil a), List.head?_cons, List.tail_cons,
    digitsVal_natDecimal]
  rw [if_pos trivial]
  obtain ⟨h3, h4⟩ := takeWhile_all_append F c rest hF hc
  rw [h3, h4, if_neg hFne]

lemma parseComponent_frac_consume (letter : Char) (a : ℕ) (F : List Char) (rest : List Char)
    (hF : ∀ x ∈ F, x.isDigit = true) (hFne : F ≠ [])
    (hl : letter.isDigit = false) (hdot : letter ≠ '.') :
    parseComponent letter (natDecimal a ++ '.' :: (F ++ letter :: rest))
      = ((a : ℚ) + (digitsVal F : ℚ) / 10 ^ F.length, rest) := by
  unfold parseComponent
  rw [parseNumber_frac a F letter rest hF hFne hl hdot]
  simp

lemma parseComponent_frac_skip (letter c : Char) (a : ℕ) (F : List Char) (rest : List Char)
    (hF : ∀ x ∈ F, x.isDigit = true) (hFne : F ≠ [])
    (hc : c.isDigit = false) (hdot : c ≠ '.') (hne : c ≠ letter) :
    parseComponent letter (natDecimal a ++ '.' :: (F ++ c :: rest))
      = (0, natDecimal a ++ '.' :: (F ++ c :: rest)) := by
  unfold parseComponent
  rw [parseNumber_frac a F c rest hF hFne hc hdot]
  simp [hne]

lemma parseHMS_shape_HMS_f (h m a : ℕ) (F : List Char)
    (hF : ∀ x ∈ F, x.isDigit = true) (hFne : F ≠ []) :
    parseHMS (natDecimal h ++ 'H' :: (natDecimal m ++ 'M' :: (natDecimal a ++ '.' :: (F ++ ['S']))))
      = (h : ℚ) * 3600 + (m : ℚ) * 60 + ((a : ℚ) + (digitsVal F : ℚ) / 10 ^ F.length) := by
  unfold parseHMS
  dsimp only
  rw [parseComponent_consume 'H' h _ (by decide) (by decide)]
  dsimp only
  rw [parseComponent_consume 'M' m _ (by decide) (by decide)]
  dsimp only
  rw [parseComponent_frac_consume 'S' a F [] hF hFne (by decide) (by decide)]

lemma parseHMS_shape_HS_f (h a : ℕ) (F : List Char)
    (hF : ∀ x ∈ F, x.isDigit = true) (hFne : F ≠ []) :
    parseHMS (natDecimal h ++ 'H' :: (natDecimal a ++ '.' :: (F ++ ['S'])))
      = (h : ℚ) * 3600 + ((a : ℚ) + (digitsVal F : ℚ) / 10 ^ F.length) := by
  unfold parseHMS
  dsimp only
  rw [parseComponent_consume 'H' h _ (by decide) (by decide)]
  dsimp only
  rw [parseComponent_frac_skip 'M' 'S' a F [] hF hFne (by decide) (by decide) (by decide)]
  dsimp only
  rw [parseComponent_frac_consume 'S' a F [] hF hFne (by decide) (by decide)]
  ring

lemma parseHMS_shape_MS_f (m a : ℕ) (F : List Char)
    (hF : ∀ x ∈ F, x.isDigit = true) (hFne : F ≠ []) :
    parseHMS (natDecimal m ++ 'M' :: (natDecimal a ++ '.' :: (F ++ ['S'])))
      = (m : ℚ) * 60 + ((a : ℚ) + (digitsVal F : ℚ) / 10 ^ F.length) := by
  unfold parseHMS
  dsimp only
  rw [parseComponent_skip 'H' 'M' m _ (by decide) (by decide) (by decide)]
  dsimp only
  rw [parseComponent_consume 'M' m _ (by decide) (by decide)]
  dsimp only
  rw [parseComponent_frac_consume 'S' a F [] hF hFne (by decide) (by decide)]
  ring

lemma parseHMS_shape_S_f (a : ℕ) (F : List Char)
    (hF : ∀ x ∈ F, x.isDigit = true) (hFne : F ≠ []) :
    parseHMS (natDecimal a ++ '.' :: (F ++ ['S']))
      = (a : ℚ) + (digitsVal F : ℚ) / 10 ^ F.length := by
  unfold parseHMS
  dsimp only
  rw [parseComponent_frac_skip 'H' 'S' a F [] hF hFne (by decide) (by decide) (by decide)]
  dsimp only
  rw [parseComponent_frac_skip 'M' 'S' a F [] hF hFne (by decide) (by decide) (by decide)]
  dsimp only
  rw [parseComponent_frac_consume 'S' a F [] hF hFne (by decide) (by decide)]
  ring

lemma floor_micro_3600 (n : ℕ) : ⌊(n : ℚ) / 1000000 / 3600⌋ = ((n / 3600000000 : ℕ) : ℤ) := by
  rw [div_div, show (1000000 : ℚ) * 3600 = 3600000000 from by norm_num]
  exact_mod_cast floor_nat_div n 3600000000 (by norm_num)

lemma floor_micro_60 (n : ℕ) : ⌊(n : ℚ) / 1000000 / 60⌋ = ((n / 60000000 : ℕ) : ℤ) := by
  rw [div_div, show (1000000 : ℚ) * 60 = 60000000 from by norm_num]
  exact_mod_cast floor_nat_div n 60000000 (by norm_num)

lemma fmtHours_micro (n : ℕ) : fmtHours ((n : ℚ) / 1000000) = ((n / 3600000000 : ℕ) : ℤ) :=
  floor_micro_3600 n

lemma fmtRemaining_micro (n : ℕ) :
    fmtRemaining ((n : ℚ) / 1000000) = ((n % 3600000000 : ℕ) : ℚ) / 1000000 := by
  unfold fmtRemaining
  rw [floor_micro_3600 n, Int.cast_natCast]
  have h2 : (n : ℚ) = 3600000000 * ((n / 3600000000 : ℕ) : ℚ) + ((n % 3600000000 : ℕ) : ℚ) := by
    exact_mod_cast (Nat.div_add_mod n 3600000000).symm
  field_simp
  linarith [h2]

lemma fmtMinutes_micro (n : ℕ) :
    fmtMinutes ((n : ℚ) / 1000000) = ((n % 3600000000 / 60000000 : ℕ) : ℤ) := by
  unfold fmtMinutes
  rw [fmtRemaining_micro]
  exact floor_micro_60 (n % 3600000000)

lemma fmtSecs_micro (n : ℕ) :
    fmtSecs ((n : ℚ) / 1000000) = ((n % 3600000000 % 60000000 : ℕ) : ℚ) / 1000000 := by
  unfold fmtSecs
  rw [fmtRemaining_micro, floor_micro_60 (n % 3600000000), Int.cast_natCast]
  have h2 : ((n % 3600000000 : ℕ) : ℚ)
      = 60000000 * ((n % 3600000000 / 60000000 : ℕ) : ℚ)
        + ((n % 3600000000 % 60000000 : ℕ) : ℚ) := by
    exact_mod_cast (Nat.div_add_mod (n % 3600000000) 60000000).symm
  field_simp
  linarith [h2]

lemma secs_int_iff (B : ℕ) (hne : B % 1000000 ≠ 0) :
    ¬((B : ℚ) / 1000000 = (⌊(B : ℚ) / 1000000⌋ : ℚ)) := by
  have hfl : ⌊(B : ℚ) / 1000000⌋ = ((B / 1000000 : ℕ) : ℤ) := by
    exact_mod_cast floor_nat_div B 1000000 (by norm_num)
  rw [hfl, Int.cast_natCast]
  intro heq
  have h3 : B = B / 1000000 * 1000000 := by
    have h2 : (B : ℚ) = ((B / 1000000 * 1000000 : ℕ) : ℚ) := by
      push_cast
      field_simp at heq
      linarith [heq]
    exact_mod_cast h2
  omega

lemma parse_format_q (q : ℚ) (h0 : 0 ≤ q) (hden : (q * 1000000).den = 1) :
    parse_iso8601_duration (format_iso8601_duration q) = some q := by
  have hnum0 : 0 ≤ (q * 1000000).num := by
    rw [Rat.num_nonneg]
    positivity
  have h1 : ((q * 1000000).num : ℚ) = q * 1000000 := by
    rw [← Rat.den_eq_one_iff]
    exact hden
  set n := (q * 1000000).num.toNat with hn
  have hqe : q = (n : ℚ) / 1000000 := by
    have h2 : ((n : ℤ) : ℚ) = q * 1000000 := by
      rw [hn, Int.toNat_of_nonneg hnum0]
      exact h1
    push_cast at h2
    field_simp
    linarith [h2]
  by_cases hint : n % 1000000 = 0
  · have heq2 : (n : ℚ) / 1000000 = ((n / 1000000 : ℕ) : ℚ) := by
      have h3 : n = n / 1000000 * 1000000 := by omega
      have h4 : ((n : ℕ) : ℚ) = ((n / 1000000 * 1000000 : ℕ) : ℚ) := by exact_mod_cast h3
      push_cast at h4
      field_simp
      linarith [h4]
    rw [hqe, heq2]
    exact parse_format_nat _
  · rw [hqe]
    have hcl : ¬((n : ℚ) / 1000000 < 0) := not_lt.mpr (by positivity)
    unfold format_iso8601_duration fmtParts fmtSecPart
    rw [if_neg hcl]
    rw [fmtHours_micro n, fmtMinutes_micro n, fmtSecs_micro n]
    simp only [Int.cast_natCast, Int.toNat_natCast, Int.natCast_pos]
    set H := n / 3600000000 with hH
    set M := n % 3600000000 / 60000000 with hM
    set B := n % 3600000000 % 60000000 with hB
    have hBne : B % 1000000 ≠ 0 := by omega
    have hB6 : B % 1000000 < 1000000 := by omega
    rw [if_neg (secs_int_iff B hBne), fracRender_struct B hBne]
    have hBpos : (0 : ℚ) < (B : ℚ) / 1000000 := by
      have hBp : 0 < B := by omega
      positivity
    obtain ⟨k, hk⟩ := rstrip_decomp '0' (padTo 6 (natDecimal (B % 1000000)))
    have hlen6 : (padTo 6 (natDecimal (B % 1000000))).length = 6 :=
      padTo_length _ _ (natDecimal_length_le _ _ (by norm_num) (by omega))
    have hdv : digitsVal (padTo 6 (natDecimal (B % 1000000))) = B % 1000000 := digitsVal_padTo _ _
    set F := rstripCh '0' (padTo 6 (natDecimal (B % 1000000))) with hFdef
    have hFne : F ≠ [] := by
      rw [hFdef]
      apply rstrip_zero_ne_nil
      rw [digitsVal_padTo]
      exact hBne
    have hFdig : ∀ c ∈ F, c.isDigit = true := by
      rw [hFdef]
      exact rstrip_sub_digits _ (padTo_all_digits 6 (B % 1000000))
    rw [hk, digitsVal_append_replicate_zero] at hdv
    rw [hk, List.length_append, List.length_replicate] at hlen6
    have hfrac : (digitsVal F : ℚ) / 10 ^ F.length = ((B % 1000000 : ℕ) : ℚ) / 1000000 := by
      rw [← hdv]
      push_cast
      rw [show (1000000 : ℚ) = 10 ^ 6 from by norm_num, ← hlen6, pow_add]
      have h10 : ((10 : ℚ) ^ F.length) ≠ 0 := by positivity
      have h10b : ((10 : ℚ) ^ k) ≠ 0 := by positivity
      field_simp
      ring
    have harith : 3600000000 * H + 60000000 * M + B = n := by omega
    by_cases hHp : 0 < H <;> by_cases hMp : 0 < M
    · rw [if_pos hHp, if_pos hMp, if_pos (Or.inl hBpos)]
      simp only [List.append_assoc, List.singleton_append, List.cons_append, List.nil_append]
      apply parse_format_branch
      · simp [natDecimal_ne_nil]
      · rw [parseHMS_shape_HMS_f H M (B / 1000000) F hFdig hFne, hfrac]
        have hq2 : ((3600000000 * H + 60000000 * M + (B / 1000000 * 1000000 + B % 1000000) : ℕ) : ℚ)
            = (n : ℚ) := by
          exact_mod_cast (show 3600000000 * H + 60000000 * M
            + (B / 1000000 * 1000000 + B % 1000000) = n from by omega)
        push_cast at hq2
        field_simp
        linarith [hq2]
    · rw [if_pos hHp, if_neg hMp, if_pos (Or.inl hBpos)]
      simp only [List.append_assoc, List.singleton_append, List.cons_append, List.nil_append]
      apply parse_format_branch
      · simp [natDecimal_ne_nil]
      · rw [parseHMS_shape_HS_f H (B / 1000000) F hFdig hFne, hfrac]
        have hq2 : ((3600000000 * H + (B / 1000000 * 1000000 + B % 1000000) : ℕ) : ℚ)
            = (n : ℚ) := by
          exact_mod_cast (show 3600000000 * H
            + (B / 1000000 * 1000000 + B % 1000000) = n from by omega)
        push_cast at hq2
        field_simp
        linarith [hq2]
    · rw [if_neg hHp, if_pos hMp, if_pos (Or.inl hBpos)]
      simp only [List.append_assoc, List.singleton_append, List.cons_append, List.nil_append]
      apply parse_format_branch
      · simp [natDecimal_ne_nil]
      · rw [parseHMS_shape_MS_f M (B / 1000000) F hFdig hFne, hfrac]
        have hq2 : ((60000000 * M + (B / 1000000 * 1000000 + B % 1000000) : ℕ) : ℚ)
            = (n : ℚ) := by
          exact_mod_cast (show 60000000 * M
            + (B / 1000000 * 1000000 + B % 1000000) = n from by omega)
        push_cast at hq2
        field_simp
        linarith [hq2]
    · rw [if_neg hHp, if_neg hMp, if_pos (Or.inl hBpos)]
      simp only [List.append_assoc, List.singleton_append, List.cons_append, List.nil_append]
      apply parse_format_branch
      · simp [natDecimal_ne_nil]
      · rw [parseHMS_shape_S_f (B / 1000000) F hFdig hFne, hfrac]
        have hq2 : (((B / 1000000 * 1000000 + B % 1000000) : ℕ) : ℚ) = (n : ℚ) := by
          exact_mod_cast (show B / 1000000 * 1000000 + B % 1000000 = n from by omega)
        push_cast at hq2
        field_simp
        linarith [hq2]

lemma parseFixed_lt (k : ℕ) (cs : List Char) (r : ℕ × List Char)
    (h : parseFixed k cs = some r) : r.1 < 10 ^ k := by
  unfold parseFixed at h
  by_cases hc : (cs.take k).length = k ∧ (cs.take k).all Char.isDigit
  · rw [if_pos hc] at h
    injection h with h2
    subst h2
    dsimp only
    have hlt := digitsVal_lt (cs.take k) (fun c hcm => List.all_eq_true.mp hc.2 c hcm)
    rw [hc.1] at hlt
    exact hlt
  · rw [if_neg hc] at h
    exact absurd h (by simp)

lemma parseFrac_le (cs : List Char) (r : ℕ × List Char)
    (h : parseFrac cs = some r) : r.1 ≤ 999999 := by
  unfold parseFrac at h
  by_cases hdot : cs.head? = some '.'
  · rw [if_pos hdot] at h
    by_cases hlen : 1 ≤ (cs.tail.takeWhile Char.isDigit).length ∧
        (cs.tail.takeWhile Char.isDigit).length ≤ 6
    · rw [if_pos hlen] at h
      injection h with h2
      subst h2
      dsimp only
      have hdig : ∀ c ∈ cs.tail.takeWhile Char.isDigit, c.isDigit = true := fun c hc =>
        List.mem_takeWhile_imp hc
      have hlt := digitsVal_lt _ hdig
      set L := (cs.tail.takeWhile Char.isDigit).length with hL
      have h6 : L ≤ 6 := hlen.2
      have hXY : 10 ^ L * 10 ^ (6 - L) = 10 ^ 6 := by
        rw [← pow_add]
        congr 1
        omega
      have hYpos : 1 ≤ 10 ^ (6 - L) := Nat.one_le_pow _ _ (by norm_num)
      calc digitsVal (cs.tail.takeWhile Char.isDigit) * 10 ^ (6 - L)
          ≤ (10 ^ L - 1) * 10 ^ (6 - L) := Nat.mul_le_mul_right _ (by omega)
        _ = 10 ^ L * 10 ^ (6 - L) - 1 * 10 ^ (6 - L) := Nat.sub_mul _ _ _
        _ = 10 ^ 6 - 10 ^ (6 - L) := by rw [hXY, one_mul]
        _ ≤ 999999 := by omega
    · rw [if_neg hlen] at h
      exact absurd h (by simp)
  · rw [if_neg hdot] at h
    injection h with h2
    subst h2
    norm_num

lemma parseClock_micro (cs : List Char) (r : (ℕ × ℕ × ℕ × ℕ) × List Char)
    (h : parseClock cs = some r) : r.1.2.2.2 ≤ 999999 := by
  unfold parseClock at h
  rcases hph : parseFixed 2 cs with _ | ph
  · rw [hph] at h
    exact absurd h (by simp)
  rw [hph] at h
  simp only [Option.some_bind] at h
  rcases hec : expectChar ':' ph.2 with _ | r2
  · rw [hec] at h
    exact absurd h (by simp)
  rw [hec] at h
  simp only [Option.some_bind] at h
  rcases hpm : parseFixed 2 r2 with _ | pm
  · rw [hpm] at h
    exact absurd h (by simp)
  rw [hpm] at h
  simp only [Option.some_bind] at h
  by_cases hcol : pm.2.head? = some ':'
  · rw [if_pos hcol] at h
    rcases hps : parseFixed 2 pm.2.tail with _ | ps
    · rw [hps] at h
      exact absurd h (by simp)
    rw [hps] at h
    simp only [Option.some_bind] at h
    rcases hpf : parseFrac ps.2 with _ | pf
    · rw [hpf] at h
      exact absurd h (by simp)
    rw [hpf] at h
    simp only [Option.some_bind] at h
    injection h with h2
    subst h2
    dsimp only
    exact parseFrac_le _ _ hpf
  · rw [if_neg hcol] at h
    injection h with h2
    subst h2
    norm_num

lemma parseOffsetEnd_bounds (cs : List Char) (o : ℤ)
    (h : parseOffsetEnd cs = some (some o)) : -86400 < o ∧ o < 86400 := by
  unfold parseOffsetEnd at h
  cases cs with
  | nil => exact absurd h (by simp)
  | cons c r1 =>
    dsimp only at h
    by_cases hsign : c = '+' ∨ c = '-'
    · rw [if_pos hsign] at h
      rcases hph : parseFixed 2 r1 with _ | poh
      · rw [hph] at h
        exact absurd h (by simp)
      rw [hph] at h
      simp only [Option.some_bind] at h
      rcases hec : expectChar ':' poh.2 with _ | r3
      · rw [hec] at h
        exact absurd h (by simp)
      rw [hec] at h
      simp only [Option.some_bind] at h
      rcases hpm : parseFixed 2 r3 with _ | pom
      · rw [hpm] at h
        exact absurd h (by simp)
      rw [hpm] at h
      simp only [Option.some_bind] at h
      rcases hpm2 : pom.2 with _ | ⟨c2, r4⟩
      · rw [hpm2] at h
        simp only [Option.some_bind] at h
        by_cases hlt : poh.1 * 3600 + pom.1 * 60 < 86400
        · rw [if_pos hlt] at h
          injection h with h2
          injection h2 with h3
          by_cases hneg : c = '-'
          · rw [if_pos hneg] at h3
            omega
          · rw [if_neg hneg] at h3
            omega
        · rw [if_neg hlt] at h
          exact absurd h (by simp)
      · rw [hpm2] at h
        dsimp only at h
        rcases hec2 : expectChar ':' (c2 :: r4) with _ | r5
        · rw [hec2] at h
          exact absurd h (by simp)
        rw [hec2] at h
        simp only [Option.some_bind] at h
        rcases hps2 : parseFixed 2 r5 with _ | pos2
        · rw [hps2] at h
          exact absurd h (by simp)
        rw [hps2] at h
        simp only [Option.some_bind] at h
        by_cases hnil : pos2.2 = []
        · rw [if_pos hnil] at h
          simp only [Option.some_bind] at h
          by_cases hlt : poh.1 * 3600 + pom.1 * 60 + pos2.1 < 86400
          · rw [if_pos hlt] at h
            injection h with h2
            injection h2 with h3
            by_cases hneg : c = '-'
            · rw [if_pos hneg] at h3
              omega
            · rw [if_neg hneg] at h3
              omega
          · rw [if_neg hlt] at h
            exact absurd h (by simp)
        · rw [if_neg hnil] at h
          exact absurd h (by simp)
    · rw [if_neg hsign] at h
      exact absurd h (by simp)

lemma isoValidate_valid (y mo dd hh mi s us : ℕ) (tz : Option ℤ) (dt : PyDateTime)
    (h : isoValidate y mo dd hh mi s us tz = some dt)
    (hy : y ≤ 9999) (hus : us ≤ 999999)
    (htz : ∀ o, tz = some o → -86400 < o ∧ o < 86400) :
    dtValid dt := by
  unfold isoValidate at h
  by_cases hc : 1 ≤ y ∧ 1 ≤ mo ∧ mo ≤ 12 ∧ 1 ≤ dd ∧ dd ≤ daysInMonthB (isLeapZ (y : ℤ)) mo ∧
      hh ≤ 23 ∧ mi ≤ 59 ∧ s ≤ 59
  · rw [if_pos hc] at h
    injection h with h2
    subst h2
    obtain ⟨h1, h2m, h3, h4, h5, h6, h7, h8⟩ := hc
    unfold dtValid dateValid
    dsimp only
    exact ⟨by exact_mod_cast h1, by exact_mod_cast hy, ⟨h2m, h3, h4, h5⟩, h6, h7, h8, hus,
      fun o ho => htz o ho⟩
  · rw [if_neg hc] at h
    exact absurd h (by simp)

lemma fromisoformatM_valid (cs : List Char) (dt : PyDateTime)
    (h : fromisoformatM cs = some dt) : dtValid dt := by
  unfold fromisoformatM at h
  rcases hpy : parseFixed 4 cs with _ | py
  · rw [hpy] at h
    exact absurd h (by simp)
  rw [hpy] at h
  simp only [Option.some_bind] at h
  rcases hr2 : expectChar '-' py.2 with _ | r2
  · rw [hr2] at h
    exact absurd h (by simp)
  rw [hr2] at h
  simp only [Option.some_bind] at h
  rcases hpmo : parseFixed 2 r2 with _ | pmo
  · rw [hpmo] at h
    exact absurd h (by simp)
  rw [hpmo] at h
  simp only [Option.some_bind] at h
  rcases hr4 : expectChar '-' pmo.2 with _ | r4
  · rw [hr4] at h
    exact absurd h (by simp)
  rw [hr4] at h
  simp only [Option.some_bind] at h
  rcases hpdd : parseFixed 2 r4 with _ | pdd
  · rw [hpdd] at h
    exact absurd h (by simp)
  rw [hpdd] at h
  simp only [Option.some_bind] at h
  have hy4 := parseFixed_lt 4 cs py hpy
  rcases hrest : pdd.2 with _ | ⟨sep, r6⟩
  · rw [hrest] at h
    dsimp only at h
    exact isoValidate_valid _ _ _ _ _ _ _ _ _ h (by omega) (by norm_num)
      (fun o ho => absurd ho (by simp))
  · rw [hrest] at h
    dsimp only at h
    by_cases hsep : sep = 'T' ∨ sep = ' '
    · rw [if_pos hsep] at h
      rcases hpc : parseClock r6 with _ | pc
      · rw [hpc] at h
        exact absurd h (by simp)
      rw [hpc] at h
      simp only [Option.some_bind] at h
      rcases hpoe : parseOffsetEnd pc.2 with _ | tzv
      · rw [hpoe] at h
        exact absurd h (by simp)
      rw [hpoe] at h
      simp only [Option.some_bind] at h
      exact isoValidate_valid _ _ _ _ _ _ _ _ _ h (by omega) (parseClock_micro _ _ hpc)
        (fun o ho => parseOffsetEnd_bounds pc.2 o (by rw [← ho]; exact hpoe))
    · rw [if_neg hsep] at h
      exact absurd h (by simp)

lemma parse_datetime_valid (s : String) (dt : PyDateTime)
    (h : parse_iso8601_datetime s = some dt) : dtValid dt := by
  unfold parse_iso8601_datetime at h
  exact fromisoformatM_valid _ _ h

lemma pyRound_int (x : ℚ) (hden : x.den = 1) : pyRound x = x.num := by
  have hx : (x.num : ℚ) = x := by
    rw [← Rat.den_eq_one_iff]
    exact hden
  have hfl : ⌊x⌋ = x.num := by
    rw [← hx]
    exact Int.floor_intCast _
  have hfr : Int.fract x = 0 := by
    unfold Int.fract
    rw [hfl, hx]
    ring
  unfold pyRound
  rw [hfr, if_pos (by norm_num), hfl]

lemma dtSubMicros_instant (e s : PyDateTime) (m : ℤ) (h : dtSubMicros e s = .ok m) :
    (m : ℚ) / 1000000 = instantSeconds e - instantSeconds s := by
  unfold dtSubMicros at h
  rcases he : e.tz with _ | oe <;> rcases hs : s.tz with _ | os <;> rw [he, hs] at h <;>
    dsimp only at h
  · injection h with h2
    unfold instantSeconds
    rw [he, hs]
    dsimp only [Option.getD]
    rw [← h2]
    push_cast
    ring
  · exact Except.noConfusion h
  · exact Except.noConfusion h
  · injection h with h2
    unfold instantSeconds
    rw [he, hs]
    dsimp only [Option.getD]
    rw [← h2]
    push_cast
    ring

lemma num_div_micro (q : ℚ) (hden : (q * 1000000).den = 1) :
    (((q * 1000000).num : ℤ) : ℚ) / 1000000 = q := by
  have h1 : ((q * 1000000).num : ℚ) = q * 1000000 := by
    rw [← Rat.den_eq_one_iff]
    exact hden
  rw [h1]
  field_simp

lemma div_micro_den (m : ℤ) : (((m : ℚ) / 1000000) * 1000000).den = 1 := by
  have h : ((m : ℚ) / 1000000) * 1000000 = (m : ℚ) := by field_simp
  rw [h]
  exact Rat.den_intCast m

/-- C4 (amended): when the start string parses to a timezone-aware
datetime, the duration string parses to a whole number of microseconds,
and the shifted datetime stays inside the supported year range,
`calculate_end_from_duration` returns `True`, stores the formatted end,
and the stored string parses back to an instant exactly `duration`
seconds after the start. -/
theorem temporal_calculate_end_correct (lo : ℤ) (tm : TemporalMetadata)
    (st du : String) (dtS : PyDateTime) (o : ℤ) (q : ℚ) (dtE : PyDateTime)
    (hst : tm.start_time = some st) (hdu : tm.duration = some du)
    (hps : parse_iso8601_datetime st = some dtS)
    (htz : dtS.tz = some o)
    (hpd : parse_iso8601_duration du = some q)
    (hq0 : 0 ≤ q) (hden : (q * 1000000).den = 1)
    (hadd : addMicros dtS (q * 1000000).num = some dtE) :
    TemporalMetadata.calculate_end_from_duration lo tm
        = .ok (true, { tm with end_time := some (format_iso8601_datetime lo dtE) }) ∧
      parse_iso8601_datetime (format_iso8601_datetime lo dtE) = some dtE ∧
      instantSeconds dtE = instantSeconds dtS + q := by
  have hvS := parse_datetime_valid st dtS hps
  obtain ⟨hinst, htzE⟩ := instantSeconds_addMicros dtS dtE _ hadd
  have htzE2 : dtE.tz = some o := by rw [htzE, htz]
  have hvE : dtValid dtE := by
    unfold addMicros at hadd
    by_cases hc : 1 ≤ (dtFromNaiveMicros (naiveMicros dtS + (q * 1000000).num) dtS.tz).year ∧
        (dtFromNaiveMicros (naiveMicros dtS + (q * 1000000).num) dtS.tz).year ≤ 9999
    · rw [if_pos hc] at hadd
      injection hadd with h2
      subst h2
      exact dtValid_dtFromNaiveMicros _ _ hc.1 hc.2
        (fun o2 ho2 => hvS.2.2.2.2.2.2.2 o2 ho2)
    · rw [if_neg hc] at hadd
      exact Option.noConfusion hadd
  refine ⟨?_, parse_format_datetime lo dtE o hvE htzE2, ?_⟩
  · unfold TemporalMetadata.calculate_end_from_duration
    rw [hst, hdu]
    dsimp only
    unfold calculate_end_time
    rw [hps]
    dsimp only
    rw [hpd]
    dsimp only
    rw [pyRound_int _ hden, hadd]
  · rw [hinst, num_div_micro q hden]

/-- C5 (amended): when both fields parse and are alike in awareness (the
subtraction does not raise), a non-negative difference makes
`calculate_duration` return `True` and store a duration string that
parses back to exactly `end - start` seconds, while a negative
difference returns `False` and leaves every field unchanged. -/
theorem temporal_calculate_duration_correct (tm : TemporalMetadata)
    (st en : String) (sdt edt : PyDateTime) (m : ℤ)
    (hst : tm.start_time = some st) (hen : tm.end_time = some en)
    (hps : parse_iso8601_datetime st = some sdt)
    (hpe : parse_iso8601_datetime en = some edt)
    (hsub : dtSubMicros edt sdt = .ok m) :
    (0 ≤ m →
      TemporalMetadata.calculate_duration tm
          = .ok (true,
            { tm with duration := some (format_iso8601_duration ((m : ℚ) / 1000000)) }) ∧
        parse_iso8601_duration (format_iso8601_duration ((m : ℚ) / 1000000))
          = some ((m : ℚ) / 1000000) ∧
        ((m : ℚ) / 1000000) = instantSeconds edt - instantSeconds sdt) ∧
    (m < 0 → TemporalMetadata.calculate_duration tm = .ok (false, tm)) := by
  constructor
  · intro hm0
    have hq0 : (0 : ℚ) ≤ (m : ℚ) / 1000000 :=
      div_nonneg (by exact_mod_cast hm0) (by norm_num)
    refine ⟨?_, parse_format_q _ hq0 (div_micro_den m), dtSubMicros_instant _ _ _ hsub⟩
    unfold TemporalMetadata.calculate_duration
    rw [hst, hen]
    dsimp only
    rw [hps, hpe]
    dsimp only
    rw [hsub]
    dsimp only
    rw [if_neg (not_lt.mpr hq0)]
  · intro hm0
    have hneg : ((m : ℚ) / 1000000 < 0) :=
      div_neg_of_neg_of_pos (by exact_mod_cast hm0) (by norm_num)
    unfold TemporalMetadata.calculate_duration
    rw [hst, hen]
    dsimp only
    rw [hps, hpe]
    dsimp only
    rw [hsub]
    dsimp only
    rw [if_pos hneg]

set_option maxHeartbeats 2000000 in
/-- C4 (counterexample): both fields are populated through the validating
setters, yet `calculate_end_from_duration` reports success while the stored
`end_time` equals the start: the duration `PT0.0000001S` parses to the
nonzero `1e-7` seconds, which `timedelta` rounds to zero microseconds, so
the end does not denote the start plus the duration. -/
theorem temporal_calculate_end_counterexample :
    TemporalMetadata.set_duration ⟨none, none, none⟩ (DurArg.str "PT0.0000001S")
      = (⟨some "PT0.0000001S", none, none⟩, none) ∧
    TemporalMetadata.set_start_time ⟨some "PT0.0000001S", none, none⟩ "2025-01-01T00:00:00Z"
      = (⟨some "PT0.0000001S", some "2025-01-01T00:00:00Z", none⟩, none) ∧
    TemporalMetadata.calculate_end_from_duration 0
        ⟨some "PT0.0000001S", some "2025-01-01T00:00:00Z", none⟩
      = .ok (true, ⟨some "PT0.0000001S", some "2025-01-01T00:00:00Z",
          some "2025-01-01T00:00:00Z"⟩) ∧
    parse_iso8601_duration "PT0.0000001S" = some (1 / 10000000) ∧
    (parse_iso8601_datetime "2025-01-01T00:00:00Z").map instantSeconds
      = some (1735689600 : ℚ) ∧
    (1735689600 : ℚ) ≠ 1735689600 + 1 / 10000000 := by
  refine ⟨?_, ?_, ?_, ?_, ?_, by norm_num⟩
  · with_unfolding_all rfl
  · with_unfolding_all rfl
  · set_option maxRecDepth 100000 in with_unfolding_all rfl
  · with_unfolding_all rfl
  · set_option maxRecDepth 100000 in with_unfolding_all rfl

set_option maxHeartbeats 2000000 in
/-- C5 (counterexample): with a naive start and an aware end - both
accepted by the validating setters - the datetime subtraction in
`calculate_duration` raises an uncaught `TypeError` instead of returning
`True` or `False`. -/
theorem temporal_calculate_duration_counterexample :
    TemporalMetadata.set_start_time ⟨none, none, none⟩ "2025-01-01T10:00:00"
      = (⟨none, some "2025-01-01T10:00:00", none⟩, none) ∧
    TemporalMetadata.set_end_time ⟨none, some "2025-01-01T10:00:00", none⟩
        "2025-01-01T11:00:00Z"
      = (⟨none, some "2025-01-01T10:00:00", some "2025-01-01T11:00:00Z"⟩, none) ∧
    TemporalMetadata.calculate_duration
        ⟨none, some "2025-01-01T10:00:00", some "2025-01-01T11:00:00Z"⟩
      = .error () := by
  refine ⟨?_, ?_, ?_⟩
  · with_unfolding_all rfl
  · with_unfolding_all rfl
  · set_option maxRecDepth 100000 in with_unfolding_all rfl

set_option maxHeartbeats 2000000 in
/-- Witness for the amended C4 theorem at a concrete aware start and a
90-minute duration. -/
theorem temporal_calculate_end_correct_witness :
    TemporalMetadata.calculate_end_from_duration 0
        ⟨some "PT1H30M", some "2025-01-01T10:00:00Z", none⟩
      = .ok (true, ⟨some "PT1H30M", some "2025-01-01T10:00:00Z",
          some (format_iso8601_datetime 0 ⟨2025, 1, 1, 11, 30, 0, 0, some 0⟩)⟩) ∧
    parse_iso8601_datetime (format_iso8601_datetime 0 ⟨2025, 1, 1, 11, 30, 0, 0, some 0⟩)
      = some ⟨2025, 1, 1, 11, 30, 0, 0, some 0⟩ ∧
    instantSeconds ⟨2025, 1, 1, 11, 30, 0, 0, some 0⟩
      = instantSeconds ⟨2025, 1, 1, 10, 0, 0, 0, some 0⟩ + 5400 :=
  temporal_calculate_end_correct 0 ⟨some "PT1H30M", some "2025-01-01T10:00:00Z", none⟩
    "2025-01-01T10:00:00Z" "PT1H30M" ⟨2025, 1, 1, 10, 0, 0, 0, some 0⟩ 0 5400
    ⟨2025, 1, 1, 11, 30, 0, 0, some 0⟩ rfl rfl
    (by set_option maxRecDepth 100000 in with_unfolding_all rfl) rfl
    (by with_unfolding_all rfl) (by norm_num) (by with_unfolding_all rfl)
    (by set_option maxRecDepth 100000 in with_unfolding_all rfl)

set_option maxHeartbeats 2000000 in
/-- Witness for the amended C5 theorem at two concrete aware datetimes
whose difference has a fractional second. -/
theorem temporal_calculate_duration_correct_witness :
    (0 ≤ (5400500000 : ℤ) →
      TemporalMetadata.calculate_duration
          ⟨none, some "2025-01-01T10:00:00Z", some "2025-01-01T11:30:00.5Z"⟩
          = .ok (true, ⟨some (format_iso8601_duration (((5400500000 : ℤ) : ℚ) / 1000000)),
              some "2025-01-01T10:00:00Z", some "2025-01-01T11:30:00.5Z"⟩) ∧
        parse_iso8601_duration (format_iso8601_duration (((5400500000 : ℤ) : ℚ) / 1000000))
          = some (((5400500000 : ℤ) : ℚ) / 1000000) ∧
        (((5400500000 : ℤ) : ℚ) / 1000000)
          = instantSeconds ⟨2025, 1, 1, 11, 30, 0, 500000, some 0⟩
            - instantSeconds ⟨2025, 1, 1, 10, 0, 0, 0, some 0⟩) ∧
    ((5400500000 : ℤ) < 0 →
      TemporalMetadata.calculate_duration
          ⟨none, some "2025-01-01T10:00:00Z", some "2025-01-01T11:30:00.5Z"⟩
        = .ok (false, ⟨none, some "2025-01-01T10:00:00Z", some "2025-01-01T11:30:00.5Z"⟩)) :=
  temporal_calculate_duration_correct
    ⟨none, some "2025-01-01T10:00:00Z", some "2025-01-01T11:30:00.5Z"⟩
    "2025-01-01T10:00:00Z" "2025-01-01T11:30:00.5Z"
    ⟨2025, 1, 1, 10, 0, 0, 0, some 0⟩ ⟨2025, 1, 1, 11, 30, 0, 500000, some 0⟩ 5400500000
    rfl rfl
    (by set_option maxRecDepth 100000 in with_unfolding_all rfl)
    (by set_option maxRecDepth 100000 in with_unfolding_all rfl)
    (by with_unfolding_all rfl)
